import Mathlib

/-!
Verification development for the oak-island-hub fact-canonicalization code.

The Python modules under scrutiny are shallowly embedded as Lean functions:

* `src/pipeline/normalizers/normalize_measurements.py` (`merge`)
* `src/pipeline/normalizers/normalize_episodes.py` (`merge`)
* `src/pipeline/normalizers/normalize_artifacts.py` (`merge`)
* `src/pipeline/normalizers/normalize_locations_from_subtitles.py` (`merge`)
* `src/semantic_sqlite_pipeline/etl_dedupe_semantic.py`
  (`string_similarity`, `fuzzy_match_person`, `load_jsonl`, `dedupe_people`)
* `src/semantic_sqlite_pipeline/etl_normalize_semantic.py` (`update_statistics`)
* `src/etl/id_maps.py` (`get_or_create_episode`)

Modelling conventions: Python floats (confidence values) are modelled as
exact rationals `ℚ` (the code only copies and compares them); Python dicts
are modelled as insertion-ordered association lists; JSON scalars stored in
row attributes are modelled as `String`, with `Option` marking an absent
key (`dict.get`); SQLite tables are lists of row structures, appended in
insertion order.  All definitions are executable.
-/

namespace Oak


/-- Lookup in an insertion-ordered association list (Python `d[k]` / `k in d`). -/
def getAssoc {κ α : Type} [DecidableEq κ] : List (κ × α) → κ → Option α
  | [], _ => none
  | p :: rest, k => if p.1 = k then some p.2 else getAssoc rest k

/-- Update-or-append in an insertion-ordered association list (Python `d[k] = v`). -/
def setAssoc {κ α : Type} [DecidableEq κ] : List (κ × α) → κ → α → List (κ × α)
  | [], k, v => [(k, v)]
  | p :: rest, k, v => if p.1 = k then (k, v) :: rest else p :: setAssoc rest k v

/-! ### Semicolon-separated source_refs strings

`row["source_refs"]` in the normalizers is a `";"`-joined string; the code
splits it with `split(";")`, unions in the fact's `source_file`, and writes
back `";".join(sorted(set))`.  We embed Python's `str.split(";")` /
`";".join` on the underlying character lists. -/

/-- Python `s.split(";")` on a character list. -/
def splitChars : List Char → List (List Char)
  | [] => [[]]
  | c :: rest =>
    match splitChars rest with
    | [] => [[]]
    | g :: gs => if c = ';' then [] :: g :: gs else (c :: g) :: gs

/-- Python `";".join` on character lists. -/
def joinChars : List (List Char) → List Char
  | [] => []
  | [g] => g
  | g :: h :: t => g ++ ';' :: joinChars (h :: t)

/-- Lexicographic comparison of character lists, Python's string `<=`. -/
def charListLe : List Char → List Char → Bool
  | [], _ => true
  | _ :: _, [] => false
  | a :: as, b :: bs => if a < b then true else if b < a then false else charListLe as bs

/-- Python string comparison used by `sorted`. -/
def strLeB (a b : String) : Bool := charListLe a.data b.data

instance : IsTotal String (fun a b => strLeB a b = true) :=
  ⟨fun a b => go a.data b.data⟩
  where
    go : ∀ a b : List Char, charListLe a b = true ∨ charListLe b a = true
      | [], _ => Or.inl rfl
      | _ :: _, [] => Or.inr rfl
      | a :: as, b :: bs => by
        by_cases h1 : a < b
        · left; simp [charListLe, h1]
        · by_cases h2 : b < a
          · right; simp [charListLe, h2]
          · rcases go as bs with h | h
            · left; simp [charListLe, h1, h2, h]
            · right; simp [charListLe, h1, h2, h]

instance : IsTrans String (fun a b => strLeB a b = true) :=
  ⟨fun a b c => go a.data b.data c.data⟩
  where
    go : ∀ a b c : List Char,
        charListLe a b = true → charListLe b c = true → charListLe a c = true
      | [], _, _ => by intro _ _; rfl
      | a :: as, [], c => by intro h _; simp [charListLe] at h
      | a :: as, b :: bs, [] => by intro _ h; simp [charListLe] at h
      | a :: as, b :: bs, c :: cs => by
        intro h1 h2
        simp only [charListLe] at h1 h2 ⊢
        by_cases hab : a < b
        · have hbc : ¬ c < b := by
            intro hcb
            rw [if_neg (asymm hcb), if_pos hcb] at h2
            exact Bool.false_ne_true h2
          have hac : a < c := lt_of_lt_of_le hab (not_lt.mp hbc)
          rw [if_pos hac]
        · by_cases hba : b < a
          · rw [if_neg hab, if_pos hba] at h1
            exact absurd h1 Bool.false_ne_true
          · have heq : a = b := le_antisymm (not_lt.mp hba) (not_lt.mp hab)
            subst heq
            rw [if_neg hab, if_neg hba] at h1
            by_cases hac : a < c
            · rw [if_pos hac]
            · by_cases hca : c < a
              · rw [if_neg hac, if_pos hca] at h2
                exact absurd h2 Bool.false_ne_true
              · rw [if_neg hac, if_neg hca] at h2 ⊢
                exact go as bs cs h1 h2

/-- Python `sorted(set(l))` for strings: distinct elements in ascending order. -/
def sortDedup (S : List String) : List String :=
  List.insertionSort (fun a b => strLeB a b = true) S.dedup

/-- The split step: `set(row["source_refs"].split(";")) if row["source_refs"] else set()`. -/
def refsSet (s : String) : List String :=
  if s = "" then [] else (splitChars s.data).map String.mk

/-- The add step: `if source_file: refs.add(source_file)`. -/
def refsAdd (S : List String) (sf : String) : List String :=
  if sf = "" then S else if sf ∈ S then S else S ++ [sf]

/-- The write-back step: `";".join(sorted(refs))`. -/
def joinRefs (S : List String) : String :=
  String.mk (joinChars ((sortDedup S).map String.data))

/-- Python truthy-or on an optional string: `fact.get(k) or row[k]`. -/
def pyOrS (v : Option String) (d : String) : String :=
  match v with
  | some s => if s = "" then d else s
  | none => d

/-! ### normalize_measurements.py -/

/-- One record of `measurements.jsonl`.  `direction`, `context`, `confidence`
and `source_file` are read with `fact.get(..., default)`; the remaining keys
are accessed directly and are required. -/
structure MFact where
  season : Int
  episode : Int
  timestamp : String
  measurement_type : String
  value : String
  unit : String
  direction : Option String
  context : Option String
  confidence : Option ℚ
  source_file : Option String
deriving DecidableEq

/-- One canonical row of `measurements.csv`. -/
structure MRow where
  season : Int
  episode : Int
  timestamp : String
  measurement_type : String
  value : String
  unit : String
  direction : String
  context : String
  confidence : ℚ
  source_refs : String
deriving DecidableEq

/-- The Python key tuple `(season, episode, timestamp, mtype, value, unit, direction)`. -/
structure MKey where
  season : Int
  episode : Int
  timestamp : String
  measurement_type : String
  value : String
  unit : String
  direction : String
deriving DecidableEq

def mkey (f : MFact) : MKey :=
  ⟨f.season, f.episode, f.timestamp, f.measurement_type, f.value, f.unit,
    f.direction.getD ""⟩

/-- The body of the fact loop in `normalize_measurements.merge`. -/
def mergeMeasOne (existing : List (MKey × MRow)) (f : MFact) : List (MKey × MRow) :=
  let key := mkey f
  let conf := f.confidence.getD 1
  match getAssoc existing key with
  | none =>
    setAssoc existing key
      { season := f.season, episode := f.episode, timestamp := f.timestamp,
        measurement_type := f.measurement_type, value := f.value, unit := f.unit,
        direction := f.direction.getD "", context := f.context.getD "",
        confidence := conf, source_refs := f.source_file.getD "" }
  | some row =>
    let row1 := if conf > row.confidence
      then { row with confidence := conf, context := f.context.getD "" }
      else row
    let row2 := { row1 with
      source_refs := joinRefs (refsAdd (refsSet row1.source_refs) (f.source_file.getD "")) }
    setAssoc existing key row2

/-- `normalize_measurements.merge(existing, facts)`. -/
def mergeMeas (existing : List (MKey × MRow)) (facts : List MFact) : List (MKey × MRow) :=
  facts.foldl mergeMeasOne existing

/-! ### normalize_episodes.py -/

/-- One record of `episodes.jsonl`.  All keys are read with `fact.get`;
`source.season_file` is flattened into one optional field. -/
structure EFact where
  season : Option Int
  episode : Option Int
  title : Option String
  air_date : Option String
  summary : Option String
  runtime : Option String
  tmdb_episode_id : Option String
  tmdb_show_id : Option String
  confidence : Option ℚ
  source_season_file : Option String
deriving DecidableEq

/-- One canonical row of `episodes.csv`.  `confidence` is `""` until a fact
sets it, modelled as `Option ℚ` with `none` for the `""` initialisation. -/
structure ERow where
  season : Int
  episode : Int
  title : String
  air_date : String
  summary : String
  runtime : String
  tmdb_episode_id : String
  tmdb_show_id : String
  confidence : Option ℚ
  source_refs : String
deriving DecidableEq

def blankERow (s e : Int) : ERow :=
  { season := s, episode := e, title := "", air_date := "", summary := "",
    runtime := "", tmdb_episode_id := "", tmdb_show_id := "",
    confidence := none, source_refs := "" }

/-- The "Basic fields" block of `normalize_episodes.merge`. -/
def epBase (f : EFact) (s e : Int) (row0 : ERow) : ERow :=
  { row0 with
    season := s, episode := e,
    title := pyOrS f.title row0.title,
    air_date := pyOrS f.air_date row0.air_date,
    summary := pyOrS f.summary row0.summary,
    runtime := pyOrS f.runtime row0.runtime,
    tmdb_episode_id := pyOrS f.tmdb_episode_id row0.tmdb_episode_id,
    tmdb_show_id := pyOrS f.tmdb_show_id row0.tmdb_show_id }

/-- The "Confidence merging" block of `normalize_episodes.merge`:
`if new_conf > old_conf: row["confidence"] = new_conf`. -/
def epConf (f : EFact) (r : ERow) : ERow :=
  if f.confidence.getD 0 > r.confidence.getD 0
  then { r with confidence := some (f.confidence.getD 0) } else r

/-- The "Source refs merging" block of `normalize_episodes.merge`: append
`src["season_file"]` unless it is already one of the `;`-separated parts. -/
def epRefs (f : EFact) (r : ERow) : ERow :=
  match f.source_season_file with
  | none => r
  | some ref =>
    if ref = "" then r
    else if r.source_refs = "" then { r with source_refs := ref }
    else if ref ∈ (splitChars r.source_refs.data).map String.mk then r
    else { r with source_refs := String.mk (r.source_refs.data ++ ';' :: ref.data) }

/-- `normalize_episodes.merge(existing, fact)`.  Facts with no season or
episode are dropped; note that present, non-empty fact fields replace the
stored value unconditionally (`fact.get(k) or row[k]`), while the stored
confidence only ratchets up. -/
def mergeEp (existing : List ((Int × Int) × ERow)) (f : EFact) :
    List ((Int × Int) × ERow) :=
  match f.season, f.episode with
  | some s, some e =>
    let key := (s, e)
    let row0 := (getAssoc existing key).getD (blankERow s e)
    setAssoc existing key (epRefs f (epConf f (epBase f s e row0)))
  | _, _ => existing

/-! ### normalize_locations_from_subtitles.py -/

structure LFact where
  season : Int
  episode : Int
  timestamp : String
  location_id : String
  location_name : String
  text : Option String
  confidence : Option ℚ
  source_file : Option String
deriving DecidableEq

structure LRow where
  season : Int
  episode : Int
  timestamp : String
  location_id : String
  location_name : String
  text : String
  confidence : ℚ
  source_refs : String
deriving DecidableEq

abbrev LKey := Int × Int × String × String

def lkey (f : LFact) : LKey := (f.season, f.episode, f.timestamp, f.location_id)

/-- The body of the fact loop in `normalize_locations_from_subtitles.merge`. -/
def mergeLocOne (existing : List (LKey × LRow)) (f : LFact) : List (LKey × LRow) :=
  let key := lkey f
  let conf := f.confidence.getD 1
  match getAssoc existing key with
  | none =>
    setAssoc existing key
      { season := f.season, episode := f.episode, timestamp := f.timestamp,
        location_id := f.location_id, location_name := f.location_name,
        text := f.text.getD "", confidence := conf,
        source_refs := f.source_file.getD "" }
  | some row =>
    let row1 := if conf > row.confidence
      then { row with confidence := conf, text := f.text.getD "",
                      location_name := f.location_name }
      else row
    let row2 := { row1 with
      source_refs := joinRefs (refsAdd (refsSet row1.source_refs) (f.source_file.getD "")) }
    setAssoc existing key row2

/-- `normalize_locations_from_subtitles.merge(existing, facts)`. -/
def mergeLoc (existing : List (LKey × LRow)) (facts : List LFact) : List (LKey × LRow) :=
  facts.foldl mergeLocOne existing

/-! ### normalize_artifacts.py -/

/-- One artifact fact; `attributes`, `episode` and `source` sub-dicts are
flattened.  `none` marks a key absent from the corresponding sub-dict. -/
structure AFact where
  artifact_id : String
  name : Option String
  category : Option String
  description : Option String
  depth_m : Option String
  depth_reference : Option String
  location_hint : Option String
  found_date_iso : Option String
  era_primary : Option String
  episode_season : Option String
  episode_number : Option String
  episode_title : Option String
  confidence : Option ℚ
  source_ref : Option String
deriving DecidableEq

structure ARow where
  artifact_id : String
  location_id : String
  name : String
  category : String
  description : String
  depth_m : String
  depth_reference : String
  found_date_iso : String
  episode_season : String
  episode_number : String
  episode_title : String
  era_primary : String
  confidence_level : Option ℚ
  source_refs : String
deriving DecidableEq

def blankARow (aid : String) : ARow :=
  { artifact_id := aid, location_id := "", name := "", category := "",
    description := "", depth_m := "", depth_reference := "",
    found_date_iso := "", episode_season := "", episode_number := "",
    episode_title := "", era_primary := "", confidence_level := none,
    source_refs := "" }

/-- The attribute block of `normalize_artifacts.merge`. -/
def artBase (f : AFact) (row0 : ARow) : ARow :=
  { row0 with
    artifact_id := f.artifact_id,
    name := f.name.getD row0.name,
    category := f.category.getD row0.category,
    description := f.description.getD row0.description,
    depth_m := f.depth_m.getD row0.depth_m,
    depth_reference := f.depth_reference.getD row0.depth_reference,
    location_id := f.location_hint.getD row0.location_id,
    episode_season := f.episode_season.getD row0.episode_season,
    episode_number := f.episode_number.getD row0.episode_number,
    episode_title := f.episode_title.getD row0.episode_title,
    found_date_iso := f.found_date_iso.getD row0.found_date_iso,
    era_primary := f.era_primary.getD row0.era_primary }

/-- The confidence block of `normalize_artifacts.merge`. -/
def artConf (f : AFact) (r : ARow) : ARow :=
  if f.confidence.getD 0 > r.confidence_level.getD 0
  then { r with confidence_level := some (f.confidence.getD 0) } else r

/-- The source-refs block of `normalize_artifacts.merge`. -/
def artRefs (f : AFact) (r : ARow) : ARow :=
  match f.source_ref with
  | none => r
  | some ref =>
    if ref = "" then r
    else if r.source_refs = "" then { r with source_refs := ref }
    else if ref ∈ (splitChars r.source_refs.data).map String.mk then r
    else { r with source_refs := String.mk (r.source_refs.data ++ ';' :: ref.data) }

/-- `normalize_artifacts.merge(existing, fact)`.  `attrs.get(k, row[k])`
keeps the stored value only when the key is absent from the fact; a present
value replaces it regardless of confidence. -/
def mergeArt (existing : List (String × ARow)) (f : AFact) : List (String × ARow) :=
  let row0 := (getAssoc existing f.artifact_id).getD (blankARow f.artifact_id)
  setAssoc existing f.artifact_id (artRefs f (artConf f (artBase f row0)))

/-- A measurement fact whose `source_file` contains the `;` separator. -/
def c1Fact : MFact :=
  { season := 1, episode := 1, timestamp := "00:01", measurement_type := "depth",
    value := "10", unit := "ft", direction := none, context := none,
    confidence := none, source_file := some "a;b" }

def c1wMF : MFact :=
  { season := 2, episode := 3, timestamp := "00:05", measurement_type := "depth",
    value := "90", unit := "ft", direction := some "down", context := some "the shaft",
    confidence := some (mkRat 7 10), source_file := some "s02e03.srt" }

def c1wEF : EFact :=
  { season := some 1, episode := some 2, title := some "The Curse",
    air_date := some "2014-01-05", summary := none, runtime := none,
    tmdb_episode_id := none, tmdb_show_id := none,
    confidence := some (mkRat 1 2), source_season_file := some "season_1.json" }

/-- An episode row holding a high-confidence title. -/
def c2Row : ERow :=
  { season := 1, episode := 1, title := "A", air_date := "", summary := "",
    runtime := "", tmdb_episode_id := "", tmdb_show_id := "",
    confidence := some (mkRat 9 10), source_refs := "" }

/-- A strictly lower-confidence episode fact with a different title. -/
def c2Fact : EFact :=
  { season := some 1, episode := some 1, title := some "B", air_date := none,
    summary := none, runtime := none, tmdb_episode_id := none,
    tmdb_show_id := none, confidence := some (mkRat 1 10),
    source_season_file := none }

def c2wRow : MRow :=
  { season := 1, episode := 4, timestamp := "00:09", measurement_type := "depth",
    value := "100", unit := "ft", direction := "", context := "old context",
    confidence := mkRat 1 2, source_refs := "" }

def c2wFact : MFact :=
  { season := 1, episode := 4, timestamp := "00:09", measurement_type := "depth",
    value := "100", unit := "ft", direction := none, context := some "new context",
    confidence := some (mkRat 1 2), source_file := none }

def c2wEF : EFact :=
  { season := some 3, episode := some 1, title := some "Titled",
    air_date := none, summary := none, runtime := none, tmdb_episode_id := none,
    tmdb_show_id := none, confidence := some (mkRat 2 10), source_season_file := none }

def c2wAF : AFact :=
  { artifact_id := "coin_1", name := some "Spanish coin", category := none,
    description := none, depth_m := none, depth_reference := none,
    location_hint := none, found_date_iso := none, era_primary := none,
    episode_season := none, episode_number := none, episode_title := none,
    confidence := some (mkRat 1 10), source_ref := none }

/-- First (lower-confidence) episode fact for the counterexample. -/
def c6F1 : EFact :=
  { season := some 1, episode := some 1, title := some "A", air_date := none,
    summary := none, runtime := none, tmdb_episode_id := none,
    tmdb_show_id := none, confidence := some (mkRat 3 5), source_season_file := none }

/-- Second (higher-confidence) episode fact for the counterexample. -/
def c6F2 : EFact :=
  { season := some 1, episode := some 1, title := some "B", air_date := none,
    summary := none, runtime := none, tmdb_episode_id := none,
    tmdb_show_id := none, confidence := some (mkRat 9 10), source_season_file := none }

def c6wF1 : LFact :=
  { season := 1, episode := 1, timestamp := "00:02", location_id := "money_pit",
    location_name := "money pit", text := some "the pit", confidence := some (mkRat 3 5),
    source_file := some "a.jsonl" }

def c6wF2 : LFact :=
  { season := 1, episode := 1, timestamp := "00:02", location_id := "money_pit",
    location_name := "Money Pit", text := some "the Money Pit", confidence := some (mkRat 9 10),
    source_file := some "b.jsonl" }

/-! ### etl_dedupe_semantic.py: string_similarity via difflib.SequenceMatcher

`string_similarity(s1, s2)` is `SequenceMatcher(None, s1.lower(), s2.lower()).ratio()`.
All names compared are far below difflib's autojunk threshold of 200
characters, so the junk machinery is inert and is omitted.  The ratio is
`2 * M / T` where `M` totals the sizes of the recursively computed longest
matching blocks and `T` is the combined length; the float division is
modelled exactly with `mkRat`. -/

/-- ASCII lowercase of one character (Python `str.lower` restricted to the
ASCII names occurring here). -/
def lowerChar (c : Char) : Char :=
  if 65 ≤ c.toNat ∧ c.toNat ≤ 90 then Char.ofNat (c.toNat + 32) else c

/-- Python `s.lower()`. -/
def pyLower (s : String) : String := String.mk (s.data.map lowerChar)

def isSpaceChar (c : Char) : Bool := c == ' ' || c == '\t' || c == '\n' || c == '\r'

/-- Python `s.strip()` (ASCII whitespace). -/
def pyStrip (s : String) : String :=
  String.mk (((s.data.dropWhile isSpaceChar).reverse.dropWhile isSpaceChar).reverse)

/-- Positions of character `c` in `b`, ascending — difflib's `b2j[c]`. -/
def posList (b : List Char) (c : Char) : List Nat :=
  (List.range b.length).filter (fun j => b.get? j == some c)

/-- Lookup in the `j2len` dictionary, defaulting to 0. -/
def lookupNat (d : List (Nat × Nat)) (k : Nat) : Nat :=
  ((d.find? (fun p => p.1 == k)).map Prod.snd).getD 0

/-- Inner loop body of `find_longest_match`: one matching position `j` of
`a[i]`, updating `newj2len` and the running best block. -/
def flmStepJ (j2len : List (Nat × Nat)) (i : Nat)
    (st : List (Nat × Nat) × Nat × Nat × Nat) (j : Nat) :
    List (Nat × Nat) × Nat × Nat × Nat :=
  let k := (if j = 0 then 0 else lookupNat j2len (j - 1)) + 1
  let newj2len := (j, k) :: st.1
  if k > st.2.2.2 then (newj2len, i + 1 - k, j + 1 - k, k)
  else (newj2len, st.2.1, st.2.2.1, st.2.2.2)

/-- Outer loop body of `find_longest_match`: one row `i`.  The `j` positions
are ascending, so Python's `continue` below `blo` and `break` at `bhi`
amount to the window filter. -/
def flmRow (a b : List Char) (blo bhi : Nat)
    (st : List (Nat × Nat) × Nat × Nat × Nat) (i : Nat) :
    List (Nat × Nat) × Nat × Nat × Nat :=
  let js := (posList b (a.getD i ' ')).filter (fun j => decide (blo ≤ j ∧ j < bhi))
  let r := js.foldl (flmStepJ st.1 i) (([] : List (Nat × Nat)), st.2)
  r

/-- The dynamic-programming core of `find_longest_match`. -/
def flmCore (a b : List Char) (alo ahi blo bhi : Nat) : Nat × Nat × Nat :=
  let fin := (List.range' alo (ahi - alo)).foldl (flmRow a b blo bhi)
    (([] : List (Nat × Nat)), alo, blo, 0)
  fin.2

def charsMatch (a : List Char) (i : Nat) (b : List Char) (j : Nat) : Bool :=
  match a.get? i, b.get? j with
  | some x, some y => x == y
  | _, _ => false

/-- The leftward extension loop of `find_longest_match` (no junk). -/
def extLow (a b : List Char) (alo blo : Nat) : Nat → Nat × Nat × Nat → Nat × Nat × Nat
  | 0, st => st
  | fuel + 1, (besti, bestj, bestsize) =>
    if alo < besti ∧ blo < bestj ∧ charsMatch a (besti - 1) b (bestj - 1) = true then
      extLow a b alo blo fuel (besti - 1, bestj - 1, bestsize + 1)
    else (besti, bestj, bestsize)

/-- The rightward extension loop of `find_longest_match` (no junk). -/
def extHigh (a b : List Char) (ahi bhi besti bestj : Nat) : Nat → Nat → Nat
  | 0, bestsize => bestsize
  | fuel + 1, bestsize =>
    if besti + bestsize < ahi ∧ bestj + bestsize < bhi ∧
        charsMatch a (besti + bestsize) b (bestj + bestsize) = true then
      extHigh a b ahi bhi besti bestj fuel (bestsize + 1)
    else bestsize

/-- difflib's `find_longest_match` on the window `a[alo:ahi]`, `b[blo:bhi]`. -/
def findLongestMatch (a b : List Char) (alo ahi blo bhi : Nat) : Nat × Nat × Nat :=
  let c0 := flmCore a b alo ahi blo bhi
  let c1 := extLow a b alo blo c0.1 c0
  (c1.1, c1.2.1, extHigh a b ahi bhi c1.1 c1.2.1 ahi c1.2.2)

/-- Total size of all matching blocks (`get_matching_blocks` recursion);
the fuel strictly exceeds the combined window size, so it never runs out. -/
def matchesTotal (a b : List Char) : Nat → Nat → Nat → Nat → Nat → Nat
  | 0, _, _, _, _ => 0
  | fuel + 1, alo, ahi, blo, bhi =>
    let m := findLongestMatch a b alo ahi blo bhi
    if m.2.2 = 0 then 0
    else
      m.2.2 + (if alo < m.1 ∧ blo < m.2.1 then matchesTotal a b fuel alo m.1 blo m.2.1 else 0)
        + (if m.1 + m.2.2 < ahi ∧ m.2.1 + m.2.2 < bhi
           then matchesTotal a b fuel (m.1 + m.2.2) ahi (m.2.1 + m.2.2) bhi else 0)

/-- `SequenceMatcher.ratio()`: `2.0 * matches / (len(a) + len(b))`, and 1.0
for two empty sequences. -/
def ratioOf (a b : List Char) : ℚ :=
  let m := matchesTotal a b (a.length + b.length + 1) 0 a.length 0 b.length
  if a.length + b.length = 0 then 1 else mkRat (2 * m) (a.length + b.length)

/-- `string_similarity(s1, s2)` from `etl_dedupe_semantic.py`. -/
def string_similarity (s1 s2 : String) : ℚ :=
  ratioOf (pyLower s1).data (pyLower s2).data

/-- `PERSON_MATCH_THRESHOLD = 0.85`. -/
def PERSON_MATCH_THRESHOLD : ℚ := mkRat 17 20

/-- The `KNOWN_PEOPLE` alias table, in its source insertion order. -/
def KNOWN_PEOPLE : List (String × String) :=
  [("Rick", "rick_lagina"), ("Rick Lagina", "rick_lagina"),
   ("Marty", "marty_lagina"), ("Marty Lagina", "marty_lagina"),
   ("Gary", "gary_drayton"), ("Gary Drayton", "gary_drayton"),
   ("Craig", "craig_tester"), ("Jack", "jack_begley"),
   ("Dave", "dave_blond"), ("Dan", "dan_blankenship"),
   ("Craig Tester", "craig_tester"), ("Jack Begley", "jack_begley"),
   ("Dave Blond", "dave_blond"), ("Alex", "alex_lagina"),
   ("Laird", "laird_niven"), ("Charles", "charles_barkhouse"),
   ("Doug", "doug_crowell"), ("Matty", "matty_blake")]

/-- The fuzzy-match loop body: `if score > best_score: best_score, best_match = ...`. -/
def fuzzyStep (n : String) (acc : ℚ × Option String) (p : String × String) :
    ℚ × Option String :=
  if string_similarity n p.1 > acc.1 then (string_similarity n p.1, some p.2) else acc

/-- Python `name_clean.lower().replace(' ', '_')`, the fallback canonical id. -/
def pyUnderscore (s : String) : String :=
  String.mk (s.data.map (fun ch => if ch = ' ' then '_' else ch))

/-- `fuzzy_match_person(name, known_people)`: exact alias lookup, then the
best strictly-above-threshold similarity, else the lowercase-underscore
fallback id. -/
def fuzzy_match_person (name : String) (known_people : List (String × String)) : String :=
  let nameClean := pyStrip name
  match getAssoc known_people nameClean with
  | some c => c
  | none =>
    match (known_people.foldl (fuzzyStep nameClean) (PERSON_MATCH_THRESHOLD, none)).2 with
    | some c => c
    | none => pyUnderscore (pyLower nameClean)

/-! ### etl_dedupe_semantic.py: load_jsonl

`load_jsonl(path)` is modelled with the file contents abstracted to an
optional list of lines (`none` = the path does not exist) and `json.loads`
abstracted to a decode function into an arbitrary record type; the calls
to the module logger are made observable as an event list. -/

inductive LogMsg where
  | warn : String → LogMsg
  | err : String → LogMsg
deriving DecidableEq

/-- `load_jsonl`: a missing file yields no records and one warning; blank
lines are ignored; lines that fail to decode are skipped with no record,
no log entry and no counter. -/
def load_jsonl {α : Type} (decode : String → Option α) (file : Option (List String)) :
    List α × List LogMsg :=
  match file with
  | none => ([], [LogMsg.warn "File not found"])
  | some lines =>
    (lines.foldl (fun acc line =>
      if pyStrip line = "" then acc
      else
        match decode line with
        | some r => acc ++ [r]
        | none => acc) [], [])

/-- A decoder accepting exactly the line "good" (an instance of `json.loads`
succeeding on well-formed lines only). -/
def cxDecode : String → Option Nat := fun s => if s = "good" then some 7 else none

/-! ### etl_dedupe_semantic.py: dedupe_people

One record of `people.jsonl` (`mention.get(...)` keys as options), the
`people` table row, the `person_mentions` junction row, and the two tables
touched by `dedupe_people`. -/

structure Mention where
  person : Option String
  season : Int
  episode : Int
  timestamp : Option String
  text : Option String
  confidence : Option ℚ
  source_file : Option String
  source_refs : Option String
deriving DecidableEq

structure PersonRow where
  id : String
  name : String
  mention_count : Int
deriving DecidableEq

structure PMRow where
  person_id : String
  season : Int
  episode : Int
  timestamp : Option String
  text : String
  confidence : ℚ
  mention_type : String
  source_file : Option String
deriving DecidableEq

structure SemDB where
  people : List PersonRow
  person_mentions : List PMRow
deriving DecidableEq

/-- `mention.get('person', '').strip()`. -/
def trimName (m : Mention) : String := pyStrip (m.person.getD "")

/-- Append to a `defaultdict(list)` group, keeping insertion order. -/
def addToGroup : List (String × List Mention) → String → Mention → List (String × List Mention)
  | [], nm, m => [(nm, [m])]
  | g :: rest, nm, m =>
    if g.1 = nm then (g.1, g.2 ++ [m]) :: rest else g :: addToGroup rest nm m

/-- One step of the `person_mentions[name].append(mention)` grouping loop:
mentions with a blank name are skipped. -/
def groupStep (acc : List (String × List Mention)) (m : Mention) :
    List (String × List Mention) :=
  if trimName m = "" then acc else addToGroup acc (trimName m) m

def groupMentions (ms : List Mention) : List (String × List Mention) :=
  ms.foldl groupStep []

/-- `canonical_to_mentions[canonical_id] += len(...)` on a `defaultdict(int)`. -/
def bumpCount : List (String × Nat) → String → Nat → List (String × Nat)
  | [], k, v => [(k, v)]
  | p :: rest, k, v => if p.1 = k then (p.1, p.2 + v) :: rest else p :: bumpCount rest k v

def upperChar (c : Char) : Char :=
  if 97 ≤ c.toNat ∧ c.toNat ≤ 122 then Char.ofNat (c.toNat - 32) else c

/-- Python `str.title()` (ASCII): uppercase a letter after a non-letter,
lowercase the rest. -/
def titleChars : List Char → Bool → List Char
  | [], _ => []
  | ch :: rest, prevAlpha =>
    (if ch.isAlpha then (if prevAlpha then lowerChar ch else upperChar ch) else ch)
      :: titleChars rest ch.isAlpha

def pyTitle (s : String) : String := String.mk (titleChars s.data false)

/-- `canonical_id.replace('_', ' ').title()`, the display name. -/
def displayOf (cid : String) : String :=
  pyTitle (String.mk (cid.data.map (fun ch => if ch = '_' then ' ' else ch)))

/-- `INSERT OR REPLACE INTO people`: replace the row with the same primary
key, else append. -/
def upsertPerson (people : List PersonRow) (r : PersonRow) : List PersonRow :=
  if people.any (fun p => p.id == r.id) then
    people.map (fun p => if p.id == r.id then r else p)
  else people ++ [r]

/-- Python `a or b` for the optional `source_file or source_refs`. -/
def pyOrOpt (a b : Option String) : Option String :=
  match a with
  | some s => if s = "" then b else some s
  | none => b

/-- The `person_mentions` row inserted for one mention. -/
def mkPMRow (cid : String) (m : Mention) : PMRow :=
  { person_id := cid, season := m.season, episode := m.episode,
    timestamp := m.timestamp, text := m.text.getD "",
    confidence := m.confidence.getD 1, mention_type := "speaker",
    source_file := pyOrOpt m.source_file m.source_refs }

/-- One step of the junction-table insertion loop: blank names `continue`,
otherwise exactly one row is appended. -/
def ledgerStep (n2c : List (String × String)) (acc : List PMRow) (m : Mention) :
    List PMRow :=
  if trimName m = "" then acc
  else acc ++ [mkPMRow ((getAssoc n2c (trimName m)).getD "") m]

/-- `dedupe_people(conn, people_jsonl)` over the in-memory tables: group
mentions by stripped name, resolve each distinct name through
`fuzzy_match_person`, upsert one canonical `people` row per canonical id
with its mention count, then append one `person_mentions` row per
non-blank mention. -/
def dedupe_people (kp : List (String × String)) (ms : List Mention) (db : SemDB) : SemDB :=
  let groups := groupMentions ms
  let n2c := groups.map (fun g => (g.1, fuzzy_match_person g.1 kp))
  let counts := groups.foldl
    (fun acc g => bumpCount acc (fuzzy_match_person g.1 kp) g.2.length) []
  let people1 := counts.foldl
    (fun acc p => upsertPerson acc ⟨p.1, displayOf p.1, (p.2 : Int)⟩) db.people
  let pm1 := ms.foldl (ledgerStep n2c) db.person_mentions
  ⟨people1, pm1⟩

/-! ### Grouping lemmas -/

def sizeSum (l : List (String × List Mention)) : Nat :=
  (l.map (fun g => g.2.length)).sum

def c5m1 : Mention :=
  { person := some "Rick", season := 1, episode := 1, timestamp := some "00:01:00",
    text := some "Rick digs", confidence := some 1, source_file := some "s01e01.srt",
    source_refs := none }

def c5m2 : Mention :=
  { person := some "Rick Lagina", season := 1, episode := 2, timestamp := none,
    text := some "Rick Lagina speaks", confidence := none, source_file := none,
    source_refs := some "s01e02.srt" }

def c5m3 : Mention :=
  { person := some "Rick", season := 2, episode := 1, timestamp := none,
    text := none, confidence := some (mkRat 1 2), source_file := some "",
    source_refs := some "s02e01.srt" }

/-! ### etl_normalize_semantic.py: update_statistics

The tables read and written by `update_statistics`, with only the columns
the three UPDATE statements touch or scan. -/

structure SPersonRow where
  id : String
  name : String
  mention_count : Int
  first_appearance_season : Option Int
  last_appearance_season : Option Int
deriving DecidableEq

structure SPMentionRow where
  person_id : String
  season : Int
deriving DecidableEq

structure STheoryRow where
  id : String
  first_mentioned_season : Option Int
  last_mentioned_season : Option Int
  evidence_count : Int
deriving DecidableEq

structure STMentionRow where
  theory_id : String
  season : Int
deriving DecidableEq

structure SEvidenceRow where
  theory_id : String
  artifact_id : String
deriving DecidableEq

structure SLocationRow where
  id : String
  first_mentioned_season : Option Int
  first_mentioned_episode : Option Int
deriving DecidableEq

structure SEventRow where
  location_id : String
  season : Int
  episode : Int
deriving DecidableEq

structure StatsDB where
  people : List SPersonRow
  person_mentions : List SPMentionRow
  theories : List STheoryRow
  theory_mentions : List STMentionRow
  artifact_evidence : List SEvidenceRow
  locations : List SLocationRow
  events : List SEventRow
deriving DecidableEq

/-- SQL `MIN(column)` over a result set: NULL when empty. -/
def listMinI (l : List Int) : Option Int :=
  l.foldl (fun acc x => match acc with
    | none => some x
    | some m => some (min m x)) none

/-- SQL `MAX(column)`: NULL when empty. -/
def listMaxI (l : List Int) : Option Int :=
  l.foldl (fun acc x => match acc with
    | none => some x
    | some m => some (max m x)) none

/-- The lexicographically least `(season, episode)` pair (`ORDER BY season,
episode LIMIT 1`). -/
def minPairI (l : List (Int × Int)) : Option (Int × Int) :=
  l.foldl (fun acc x => match acc with
    | none => some x
    | some m => some (if x.1 < m.1 ∨ (x.1 = m.1 ∧ x.2 < m.2) then x else m)) none

/-- `update_statistics(conn)`: recompute every aggregate column of the
`people`, `theories` and `locations` tables from the ledger tables
(`person_mentions`, `theory_mentions`, `artifact_evidence`, `events`),
which it never modifies. -/
def update_statistics (db : StatsDB) : StatsDB :=
  let people1 := db.people.map (fun p =>
    let seasons := (db.person_mentions.filter (fun m => m.person_id == p.id)).map
      (fun m => m.season)
    { p with
      first_appearance_season := listMinI seasons,
      last_appearance_season := listMaxI seasons,
      mention_count := (seasons.length : Int) })
  let theories1 := db.theories.map (fun t =>
    let seasons := (db.theory_mentions.filter (fun m => m.theory_id == t.id)).map
      (fun m => m.season)
    let arts := ((db.artifact_evidence.filter (fun ev => ev.theory_id == t.id)).map
      (fun ev => ev.artifact_id)).dedup
    { t with
      first_mentioned_season := listMinI seasons,
      last_mentioned_season := listMaxI seasons,
      evidence_count := (arts.length : Int) })
  let locations1 := db.locations.map (fun loc =>
    let evs := (db.events.filter (fun ev => ev.location_id == loc.id)).map
      (fun ev => (ev.season, ev.episode))
    { loc with
      first_mentioned_season := listMinI (evs.map (fun e => e.1)),
      first_mentioned_episode := (minPairI evs).map (fun e => e.2) })
  { db with people := people1, theories := theories1, locations := locations1 }

/-! ### id_maps.py: get_or_create_episode

The in-memory `EPISODE_MAP` cache, the `episodes` table, and the session's
autoincrement counter form the state threaded through each call. -/

structure EpisodeRow where
  id : Int
  season : Int
  episode : Int
  title : String
deriving DecidableEq

structure EpState where
  episode_map : List ((Int × Int) × Int)
  episodes : List EpisodeRow
  next_id : Int
deriving DecidableEq

/-- `SELECT id FROM episodes WHERE season = ... AND episode = ...`. -/
def selectEpisode (tbl : List EpisodeRow) (season episode : Int) : Option Int :=
  (tbl.find? (fun r => r.season == season && r.episode == episode)).map (fun r => r.id)

/-- `get_or_create_episode(season, episode, session)`: cache hit, else table
hit (cached), else `INSERT ... ON CONFLICT DO NOTHING` followed by a
re-select, caching and returning the id either way. -/
def get_or_create_episode (season episode : Int) (st : EpState) : Int × EpState :=
  let key := (season, episode)
  match getAssoc st.episode_map key with
  | some eid => (eid, st)
  | none =>
    match selectEpisode st.episodes season episode with
    | some eid => (eid, { st with episode_map := setAssoc st.episode_map key eid })
    | none =>
      let row : EpisodeRow :=
        { id := st.next_id, season := season, episode := episode,
          title := "Unknown S" ++ toString season ++ "E" ++ toString episode }
      let tbl1 := if st.episodes.any (fun r => r.season == season && r.episode == episode)
        then st.episodes else st.episodes ++ [row]
      let eid := (selectEpisode tbl1 season episode).getD 0
      (eid, { episode_map := setAssoc st.episode_map key eid, episodes := tbl1,
              next_id := st.next_id + 1 })

theorem getAssoc_setAssoc_self {κ α : Type} [DecidableEq κ]
    (l : List (κ × α)) (k : κ) (v : α) : getAssoc (setAssoc l k v) k = some v := by
  induction l with
  | nil => simp [getAssoc, setAssoc]
  | cons p rest ih =>
    by_cases h : p.1 = k
    · simp [getAssoc, setAssoc, h]
    · simp [getAssoc, setAssoc, h, ih]

theorem setAssoc_setAssoc_self {κ α : Type} [DecidableEq κ]
    (l : List (κ × α)) (k : κ) (v w : α) :
    setAssoc (setAssoc l k v) k w = setAssoc l k w := by
  induction l with
  | nil => simp [setAssoc]
  | cons p rest ih =>
    by_cases h : p.1 = k
    · simp [setAssoc, h]
    · simp [setAssoc, h, ih]

theorem splitChars_ne_nil (l : List Char) : splitChars l ≠ [] := by
  cases l with
  | nil => simp [splitChars]
  | cons c rest =>
    simp only [splitChars]
    cases h : splitChars rest with
    | nil => simp
    | cons g gs => by_cases hc : c = ';' <;> simp [hc]

theorem splitChars_semifree (l : List Char) : ∀ g ∈ splitChars l, ';' ∉ g := by
  induction l with
  | nil =>
    intro g hg
    simp only [splitChars, List.mem_singleton] at hg
    subst hg; simp
  | cons c rest ih =>
    intro g hg
    cases h : splitChars rest with
    | nil => exact absurd h (splitChars_ne_nil rest)
    | cons g0 gs =>
      simp only [splitChars, h] at hg
      by_cases hc : c = ';'
      · rw [if_pos hc] at hg
        rcases List.mem_cons.mp hg with h1 | h1
        · subst h1; simp
        · exact ih g (h ▸ h1)
      · rw [if_neg hc] at hg
        rcases List.mem_cons.mp hg with h1 | h1
        · subst h1
          intro hmem
          rcases List.mem_cons.mp hmem with h2 | h2
          · exact hc h2.symm
          · exact ih g0 (h ▸ List.mem_cons_self g0 gs) h2
        · exact ih g (h ▸ List.mem_cons_of_mem g0 h1)

theorem splitChars_single (l : List Char) (h : ';' ∉ l) : splitChars l = [l] := by
  induction l with
  | nil => simp [splitChars]
  | cons c rest ih =>
    have hc : c ≠ ';' := fun hh => h (hh ▸ List.mem_cons_self c rest)
    have hr : ';' ∉ rest := fun hh => h (List.mem_cons_of_mem c hh)
    simp [splitChars, ih hr, hc]

theorem splitChars_prepend (g : List Char) (hg : ';' ∉ g) :
    ∀ (l : List Char) (h t : _), splitChars l = h :: t →
      splitChars (g ++ l) = (g ++ h) :: t := by
  induction g with
  | nil => intro l h t hl; simpa using hl
  | cons c g' ih =>
    intro l h t hl
    have hc : c ≠ ';' := fun hh => hg (hh ▸ List.mem_cons_self c g')
    have hg' : ';' ∉ g' := fun hh => hg (List.mem_cons_of_mem c hh)
    have hrec : splitChars (g'.append l) = (g' ++ h) :: t := ih hg' l h t hl
    simp only [List.cons_append, splitChars, if_neg hc]
    rw [hrec]

theorem split_join (L : List (List Char)) (hne : L ≠ [])
    (hfree : ∀ g ∈ L, ';' ∉ g) : splitChars (joinChars L) = L := by
  induction L with
  | nil => exact absurd rfl hne
  | cons g rest ih =>
    cases rest with
    | nil =>
      simp only [joinChars]
      exact splitChars_single g (hfree g (List.mem_cons_self g []))
    | cons h t =>
      have hg : ';' ∉ g := hfree g (List.mem_cons_self g (h :: t))
      have hrest : splitChars (joinChars (h :: t)) = h :: t :=
        ih (by simp) (fun x hx => hfree x (List.mem_cons_of_mem g hx))
      have hsemi : splitChars (';' :: joinChars (h :: t)) = [] :: h :: t := by
        simp [splitChars, hrest]
      have hpre := splitChars_prepend g hg (';' :: joinChars (h :: t)) [] (h :: t) hsemi
      simpa [joinChars] using hpre

theorem joinChars_eq_nil_iff (L : List (List Char)) :
    joinChars L = [] ↔ L = [] ∨ L = [[]] := by
  cases L with
  | nil => simp [joinChars]
  | cons g rest =>
    cases rest with
    | nil => simp [joinChars]
    | cons h t => simp [joinChars]

theorem mem_sortDedup {a : String} {S : List String} : a ∈ sortDedup S ↔ a ∈ S := by
  unfold sortDedup
  rw [List.mem_insertionSort, List.mem_dedup]

theorem sortDedup_idem (S : List String) : sortDedup (sortDedup S) = sortDedup S := by
  unfold sortDedup
  rw [List.dedup_eq_self.mpr]
  · exact (List.sorted_insertionSort _ _).insertionSort_eq
  · exact (List.perm_insertionSort _ _).nodup_iff.mpr (List.nodup_dedup S)

theorem string_eq_mk (s : String) : String.mk s.data = s := by cases s; rfl

theorem string_data_inj {s t : String} (h : s.data = t.data) : s = t := by
  cases s; cases t; exact congrArg String.mk h

/-- Re-splitting, re-adding an already present (or empty) source ref, and
re-joining a joined refs string is a no-op: the second pass of the merge
leaves `source_refs` unchanged, provided no stored ref contains the `;`
separator. -/
theorem refs_stable (S : List String) (sf : String)
    (hfree : ∀ g ∈ S, ';' ∉ g.data) (hsf : sf = "" ∨ sf ∈ S) :
    joinRefs (refsAdd (refsSet (joinRefs S)) sf) = joinRefs S := by
  by_cases hempty : joinChars ((sortDedup S).map String.data) = []
  · -- the joined string is empty: the sorted set is `[]` or `[""]`
    have hS : sortDedup S = [] ∨ sortDedup S = [""] := by
      rcases (joinChars_eq_nil_iff _).mp hempty with h | h
      · left; exact List.map_eq_nil_iff.mp h
      · right
        cases hsd : sortDedup S with
        | nil => rw [hsd] at h; simp at h
        | cons d ds =>
          rw [hsd] at h
          simp only [List.map_cons, List.cons.injEq] at h
          obtain ⟨hd, hds⟩ := h
          have hds' : ds = [] := List.map_eq_nil_iff.mp hds
          have hd' : d = "" := string_data_inj (by rw [hd])
          rw [hds', hd']
    have hjoin : joinRefs S = "" := by
      unfold joinRefs; rw [hempty]
    have hsf' : sf = "" := by
      rcases hsf with h | h
      · exact h
      · have hmem : sf ∈ sortDedup S := mem_sortDedup.mpr h
        rcases hS with h2 | h2
        · rw [h2] at hmem; simp at hmem
        · rw [h2] at hmem; simpa using hmem
    rw [hjoin]
    simp only [refsSet, if_pos rfl, refsAdd, if_pos hsf']
    unfold joinRefs sortDedup
    rfl
  · -- the joined string is non-empty: splitting recovers the sorted set
    have hne : (sortDedup S).map String.data ≠ [] := by
      intro h; rw [h] at hempty; exact hempty rfl
    have hfree2 : ∀ g ∈ (sortDedup S).map String.data, ';' ∉ g := by
      intro g hg
      rcases List.mem_map.mp hg with ⟨x, hx, hxe⟩
      exact hxe ▸ hfree x (mem_sortDedup.mp hx)
    have hrt : splitChars (joinChars ((sortDedup S).map String.data))
        = (sortDedup S).map String.data := split_join _ hne hfree2
    have hjne : joinRefs S ≠ "" := by
      unfold joinRefs
      intro h
      have hdat : (String.mk (joinChars ((sortDedup S).map String.data))).data = [] := by
        rw [h]
      exact hempty hdat
    have hdata : (joinRefs S).data = joinChars ((sortDedup S).map String.data) := rfl
    have hsplit : refsSet (joinRefs S) = sortDedup S := by
      unfold refsSet
      rw [if_neg hjne, hdata, hrt, List.map_map]
      have hcomp : (String.mk ∘ String.data) = id := by
        funext s; simp [string_eq_mk]
      rw [hcomp, List.map_id]
    rw [hsplit]
    have hadd : refsAdd (sortDedup S) sf = sortDedup S := by
      unfold refsAdd
      by_cases h0 : sf = ""
      · rw [if_pos h0]
      · rcases hsf with h | h
        · exact absurd h h0
        · rw [if_neg h0, if_pos (mem_sortDedup.mpr h)]
    rw [hadd]
    unfold joinRefs
    rw [sortDedup_idem]

/-- Fresh-row case: the raw `source_file` string written on first insert is
reproduced exactly by one split/add/sort/join pass, when it has no `;`. -/
theorem refs_fresh (sf : String) (hfree : ';' ∉ sf.data) :
    joinRefs (refsAdd (refsSet sf) sf) = sf := by
  by_cases h0 : sf = ""
  · subst h0
    simp only [refsSet, if_pos rfl, refsAdd, if_pos rfl]
    unfold joinRefs sortDedup
    rfl
  · have hsplit : refsSet sf = [sf] := by
      unfold refsSet
      rw [if_neg h0, splitChars_single sf.data hfree]
      simp [string_eq_mk]
    rw [hsplit]
    have hadd : refsAdd [sf] sf = [sf] := by
      unfold refsAdd
      rw [if_neg h0, if_pos (List.mem_singleton.mpr rfl)]
    rw [hadd]
    have hsd : sortDedup [sf] = [sf] := by
      unfold sortDedup
      rw [List.dedup_eq_self.mpr (List.nodup_singleton sf)]
      rfl
    unfold joinRefs
    rw [hsd]
    simp only [List.map_cons, List.map_nil, joinChars, string_eq_mk]

theorem pyOrS_idem (v : Option String) (d : String) : pyOrS v (pyOrS v d) = pyOrS v d := by
  cases v with
  | none => rfl
  | some s =>
    by_cases h : s = "" <;> simp [pyOrS, h]

/-! ### Supporting lemmas for the merge theorems -/

theorem setAssoc_eq_self {κ α : Type} [DecidableEq κ]
    (l : List (κ × α)) (k : κ) (v : α) (h : getAssoc l k = some v) :
    setAssoc l k v = l := by
  induction l with
  | nil => simp [getAssoc] at h
  | cons p rest ih =>
    by_cases hp : p.1 = k
    · simp only [getAssoc, if_pos hp] at h
      obtain ⟨rfl⟩ := h
      simp only [setAssoc, if_pos hp]
      rw [← hp]
    · simp only [getAssoc, if_neg hp] at h
      simp only [setAssoc, if_neg hp, ih h]

theorem refsSet_semifree (s : String) : ∀ g ∈ refsSet s, ';' ∉ g.data := by
  intro g hg
  unfold refsSet at hg
  by_cases h : s = ""
  · rw [if_pos h] at hg; simp at hg
  · rw [if_neg h] at hg
    rcases List.mem_map.mp hg with ⟨x, hx, hxe⟩
    have hx' : ';' ∉ x := splitChars_semifree s.data x hx
    rw [← hxe]
    exact hx'

theorem refsAdd_mem {a : String} {S : List String} {sf : String}
    (h : a ∈ refsAdd S sf) : a ∈ S ∨ a = sf := by
  unfold refsAdd at h
  by_cases h0 : sf = ""
  · rw [if_pos h0] at h; exact Or.inl h
  · rw [if_neg h0] at h
    by_cases h1 : sf ∈ S
    · rw [if_pos h1] at h; exact Or.inl h
    · rw [if_neg h1] at h
      rcases List.mem_append.mp h with h2 | h2
      · exact Or.inl h2
      · exact Or.inr (List.mem_singleton.mp h2)

theorem refsAdd_self {S : List String} {sf : String} (h : sf ≠ "") :
    sf ∈ refsAdd S sf := by
  unfold refsAdd
  rw [if_neg h]
  by_cases h1 : sf ∈ S
  · rw [if_pos h1]; exact h1
  · rw [if_neg h1]; exact List.mem_append.mpr (Or.inr (List.mem_singleton.mpr rfl))

/-- A second pass over an already-merged `source_refs` string is a no-op. -/
theorem refs_round_stable (s sf : String) (hsf : ';' ∉ sf.data) :
    joinRefs (refsAdd (refsSet (joinRefs (refsAdd (refsSet s) sf))) sf)
      = joinRefs (refsAdd (refsSet s) sf) := by
  apply refs_stable
  · intro g hg
    rcases refsAdd_mem hg with h | h
    · exact refsSet_semifree s g h
    · rw [h]; exact hsf
  · by_cases h0 : sf = ""
    · exact Or.inl h0
    · exact Or.inr (refsAdd_self h0)

/-! ### Idempotence and gating of normalize_measurements.merge -/

theorem mergeMeasOne_noop (E : List (MKey × MRow)) (f : MFact) (row : MRow)
    (hrow : getAssoc E (mkey f) = some row)
    (hconf : ¬ (f.confidence.getD 1 > row.confidence))
    (hrefs : joinRefs (refsAdd (refsSet row.source_refs) (f.source_file.getD ""))
              = row.source_refs) :
    mergeMeasOne E f = E := by
  unfold mergeMeasOne
  simp only [hrow, if_neg hconf, hrefs]
  exact setAssoc_eq_self E (mkey f) row hrow

theorem mergeMeasOne_idem (E : List (MKey × MRow)) (f : MFact)
    (h : ';' ∉ (f.source_file.getD "").data) :
    mergeMeasOne (mergeMeasOne E f) f = mergeMeasOne E f := by
  cases hE : getAssoc E (mkey f) with
  | none =>
    have hfirst : mergeMeasOne E f = setAssoc E (mkey f)
        { season := f.season, episode := f.episode, timestamp := f.timestamp,
          measurement_type := f.measurement_type, value := f.value, unit := f.unit,
          direction := f.direction.getD "", context := f.context.getD "",
          confidence := f.confidence.getD 1, source_refs := f.source_file.getD "" } := by
      unfold mergeMeasOne
      simp only [hE]
    rw [hfirst]
    apply mergeMeasOne_noop
    · exact getAssoc_setAssoc_self E (mkey f) _
    · exact lt_irrefl _
    · exact refs_fresh _ h
  | some row =>
    have hfirst : mergeMeasOne E f = setAssoc E (mkey f)
        { (if f.confidence.getD 1 > row.confidence
            then { row with confidence := f.confidence.getD 1, context := f.context.getD "" }
            else row) with
          source_refs := joinRefs (refsAdd
            (refsSet (if f.confidence.getD 1 > row.confidence
              then { row with confidence := f.confidence.getD 1,
                              context := f.context.getD "" }
              else row).source_refs)
            (f.source_file.getD "")) } := by
      unfold mergeMeasOne
      simp only [hE]
    rw [hfirst]
    apply mergeMeasOne_noop
    · exact getAssoc_setAssoc_self E (mkey f) _
    · by_cases hc : f.confidence.getD 1 > row.confidence
      · simp only [if_pos hc]
        exact lt_irrefl _
      · simp only [if_neg hc]
        exact hc
    · by_cases hc : f.confidence.getD 1 > row.confidence
      · simp only [if_pos hc]
        exact refs_round_stable _ _ h
      · simp only [if_neg hc]
        exact refs_round_stable _ _ h

/-! ### Idempotence of normalize_episodes.merge -/

theorem epConf_update (f : EFact) (r : ERow) :
    epConf f r = { r with confidence := (epConf f r).confidence } := by
  unfold epConf
  by_cases h : f.confidence.getD 0 > r.confidence.getD 0
  · rw [if_pos h]
  · rw [if_neg h]

theorem epRefs_update (f : EFact) (r : ERow) :
    epRefs f r = { r with source_refs := (epRefs f r).source_refs } := by
  unfold epRefs
  cases f.source_season_file with
  | none => rfl
  | some ref =>
    by_cases h1 : ref = ""
    · simp only [if_pos h1]
    · by_cases h2 : r.source_refs = ""
      · simp only [if_neg h1, if_pos h2]
      · by_cases h3 : ref ∈ (splitChars r.source_refs.data).map String.mk
        · simp only [if_neg h1, if_neg h2, if_pos h3]
        · simp only [if_neg h1, if_neg h2, if_neg h3]

theorem epConf_not_gt (f : EFact) (r : ERow) :
    ¬ (f.confidence.getD 0 > (epConf f r).confidence.getD 0) := by
  unfold epConf
  by_cases h : f.confidence.getD 0 > r.confidence.getD 0
  · rw [if_pos h]
    simp only [Option.getD_some]
    exact lt_irrefl _
  · rw [if_neg h]
    exact h

theorem epConf_fix (f : EFact) (r : ERow)
    (h : ¬ (f.confidence.getD 0 > r.confidence.getD 0)) : epConf f r = r := by
  unfold epConf
  rw [if_neg h]

theorem mk_ne_empty {l : List Char} (h : l ≠ []) : String.mk l ≠ "" := by
  intro he
  exact h (congrArg String.data he)

theorem splitChars_append_last (r : List Char) (hr : ';' ∉ r) :
    ∀ x : List Char, splitChars (x ++ ';' :: r) = splitChars x ++ [r] := by
  intro x
  induction x with
  | nil =>
    simp [splitChars, splitChars_single r hr]
  | cons c x' ih =>
    cases hx : splitChars x' with
    | nil => exact absurd hx (splitChars_ne_nil x')
    | cons g gs =>
      have ih' : splitChars (x'.append (';' :: r)) = (g :: gs) ++ [r] := by
        rw [← hx]; exact ih
      simp only [List.cons_append, splitChars, ih', hx]
      by_cases hc : c = ';' <;> simp [hc]

theorem epRefs_idem (f : EFact) (r : ERow)
    (h : ';' ∉ (f.source_season_file.getD "").data) :
    epRefs f (epRefs f r) = epRefs f r := by
  unfold epRefs
  cases hsf : f.source_season_file with
  | none => rfl
  | some ref =>
    have href : ';' ∉ ref.data := by rw [hsf] at h; exact h
    by_cases h1 : ref = ""
    · simp only [if_pos h1]
    · by_cases h2 : r.source_refs = ""
      · -- first pass writes the raw ref; second pass finds it among the parts
        simp only [if_neg h1, if_pos h2]
        have hmem : ref ∈ (splitChars ref.data).map String.mk := by
          rw [splitChars_single ref.data href]
          simp [string_eq_mk]
        simp [h1, hmem]
      · by_cases h3 : ref ∈ (splitChars r.source_refs.data).map String.mk
        · simp only [if_neg h1, if_neg h2, if_pos h3]
        · -- first pass appends `;ref`; second pass finds it as the last part
          simp only [if_neg h1, if_neg h2, if_neg h3]
          have hne : r.source_refs.data ++ ';' :: ref.data ≠ [] := by simp
          have hmem : ref ∈ (splitChars ((String.mk (r.source_refs.data ++ ';' :: ref.data)).data)).map String.mk := by
            show ref ∈ (splitChars (r.source_refs.data ++ ';' :: ref.data)).map String.mk
            rw [splitChars_append_last ref.data href]
            simp [string_eq_mk]
          simp [h1, mk_ne_empty hne, hmem]

theorem epBase_idem (f : EFact) (s e : Int) (r : ERow) (c : Option ℚ) (q : String) :
    epBase f s e { epBase f s e r with confidence := c, source_refs := q }
      = { epBase f s e r with confidence := c, source_refs := q } := by
  simp [epBase, pyOrS_idem]

theorem mergeEp_noop (E : List ((Int × Int) × ERow)) (f : EFact) (s e : Int) (row : ERow)
    (hs : f.season = some s) (he : f.episode = some e)
    (hrow : getAssoc E (s, e) = some row)
    (hbase : epBase f s e row = row)
    (hconf : epConf f row = row)
    (hrefs : epRefs f row = row) :
    mergeEp E f = E := by
  unfold mergeEp
  simp only [hs, he, hrow, Option.getD_some, hbase, hconf, hrefs]
  exact setAssoc_eq_self E (s, e) row hrow

theorem mergeEp_idem (E : List ((Int × Int) × ERow)) (f : EFact)
    (h : ';' ∉ (f.source_season_file.getD "").data) :
    mergeEp (mergeEp E f) f = mergeEp E f := by
  cases hs : f.season with
  | none => unfold mergeEp; simp [hs]
  | some s =>
  cases he : f.episode with
  | none => unfold mergeEp; simp [hs, he]
  | some e =>
  have hfirst : mergeEp E f = setAssoc E (s, e)
      (epRefs f (epConf f (epBase f s e ((getAssoc E (s, e)).getD (blankERow s e))))) := by
    unfold mergeEp
    simp only [hs, he]
  rw [hfirst]
  have hform : epRefs f (epConf f (epBase f s e ((getAssoc E (s, e)).getD (blankERow s e))))
      = { epBase f s e ((getAssoc E (s, e)).getD (blankERow s e)) with
          confidence := (epConf f (epBase f s e ((getAssoc E (s, e)).getD (blankERow s e)))).confidence,
          source_refs := (epRefs f (epConf f (epBase f s e ((getAssoc E (s, e)).getD (blankERow s e))))).source_refs } := by
    rw [epRefs_update, epConf_update]
  apply mergeEp_noop _ _ s e _ hs he
  · exact getAssoc_setAssoc_self E (s, e) _
  · rw [hform]
    exact epBase_idem f s e _ _ _
  · apply epConf_fix
    have hc : (epRefs f (epConf f (epBase f s e ((getAssoc E (s, e)).getD (blankERow s e))))).confidence
        = (epConf f (epBase f s e ((getAssoc E (s, e)).getD (blankERow s e)))).confidence := by
      rw [epRefs_update]
    rw [hc]
    exact epConf_not_gt f _
  · exact epRefs_idem f _ h

/-! ### Projection lemmas for the staged episode/artifact merges -/

theorem epConf_title (f : EFact) (r : ERow) : (epConf f r).title = r.title := by
  rw [epConf_update]

theorem epRefs_title (f : EFact) (r : ERow) : (epRefs f r).title = r.title := by
  rw [epRefs_update]

theorem pyOrS_some_ne (t d : String) (h : t ≠ "") : pyOrS (some t) d = t := by
  simp [pyOrS, h]

theorem artConf_update (f : AFact) (r : ARow) :
    artConf f r = { r with confidence_level := (artConf f r).confidence_level } := by
  unfold artConf
  by_cases h : f.confidence.getD 0 > r.confidence_level.getD 0
  · rw [if_pos h]
  · rw [if_neg h]

theorem artRefs_update (f : AFact) (r : ARow) :
    artRefs f r = { r with source_refs := (artRefs f r).source_refs } := by
  unfold artRefs
  cases f.source_ref with
  | none => rfl
  | some ref =>
    by_cases h1 : ref = ""
    · simp only [if_pos h1]
    · by_cases h2 : r.source_refs = ""
      · simp only [if_neg h1, if_pos h2]
      · by_cases h3 : ref ∈ (splitChars r.source_refs.data).map String.mk
        · simp only [if_neg h1, if_neg h2, if_pos h3]
        · simp only [if_neg h1, if_neg h2, if_neg h3]

theorem artConf_name (f : AFact) (r : ARow) : (artConf f r).name = r.name := by
  rw [artConf_update]

theorem artRefs_name (f : AFact) (r : ARow) : (artRefs f r).name = r.name := by
  rw [artRefs_update]

/-! ### Claim C1 -/

/-- C1: "Merge is idempotent: applying the merge step of the normalizer twice
with the same fact yields exactly the same row as applying it once", amended
with the hypothesis forced by the counterexample `merge_idem_cx`: the fact's
source file reference must not contain the `;` separator used to join
`source_refs` (with such a ref the second pass splits the stored string into
fragments and re-adds the whole ref).  Covers the measurements merge and the
episodes merge cited by the claim. -/
theorem merge_idem_amended (E : List (MKey × MRow)) (f : MFact)
    (Ee : List ((Int × Int) × ERow)) (fe : EFact)
    (hm : ';' ∉ (f.source_file.getD "").data)
    (hee : ';' ∉ (fe.source_season_file.getD "").data) :
    mergeMeas (mergeMeas E [f]) [f] = mergeMeas E [f] ∧
    mergeEp (mergeEp Ee fe) fe = mergeEp Ee fe := by
  constructor
  · show mergeMeasOne (mergeMeasOne E f) f = mergeMeasOne E f
    exact mergeMeasOne_idem E f hm
  · exact mergeEp_idem Ee fe hee

/-- C1 counterexample: with `source_file = "a;b"` the measurements merge is
not idempotent — the first pass stores `source_refs = "a;b"`, the second
splits it into `{"a","b"}`, re-adds `"a;b"` and writes `"a;a;b;b"`. -/
theorem merge_idem_cx :
    mergeMeas (mergeMeas [] [c1Fact]) [c1Fact] ≠ mergeMeas [] [c1Fact] := by decide

/-- C1 witness: the amended idempotence theorem applied at concrete inputs. -/
theorem merge_idem_wit :
    (';' ∉ (c1wMF.source_file.getD "").data) ∧
    (';' ∉ (c1wEF.source_season_file.getD "").data) ∧
    mergeMeas (mergeMeas [] [c1wMF]) [c1wMF] = mergeMeas [] [c1wMF] ∧
    mergeEp (mergeEp [] c1wEF) c1wEF = mergeEp [] c1wEF :=
  ⟨by decide, by decide,
   (merge_idem_amended [] c1wMF [] c1wEF (by decide) (by decide)).1,
   (merge_idem_amended [] c1wMF [] c1wEF (by decide) (by decide)).2⟩

/-! ### Claim C2 -/

/-- C2: "a value is replaced only when the fact's confidence is strictly
greater than the stored confidence; ties keep the existing value", amended:
this holds for the confidence-gated attributes of the measurements merge
(`context`, and the stored confidence itself), but in the episodes and
artifacts merges a present, non-empty incoming value replaces the stored
value unconditionally — only the stored confidence is gated.  The
counterexample `confidence_gate_cx` shows an episode title overwritten by a
strictly lower-confidence fact. -/
theorem confidence_gate_amended
    (E : List (MKey × MRow)) (f : MFact) (row : MRow)
    (Ee : List ((Int × Int) × ERow)) (fe : EFact) (s e : Int) (t : String)
    (Ea : List (String × ARow)) (fa : AFact) (nm : String)
    (hrow : getAssoc E (mkey f) = some row)
    (hs : fe.season = some s) (he : fe.episode = some e)
    (ht : fe.title = some t) (htne : t ≠ "")
    (hnm : fa.name = some nm) :
    ((getAssoc (mergeMeas E [f]) (mkey f)).map (fun r => (r.context, r.confidence))
        = some (if f.confidence.getD 1 > row.confidence
                then (f.context.getD "", f.confidence.getD 1)
                else (row.context, row.confidence))) ∧
    ((getAssoc (mergeEp Ee fe) (s, e)).map ERow.title = some t) ∧
    ((getAssoc (mergeArt Ea fa) fa.artifact_id).map ARow.name = some nm) := by
  refine ⟨?_, ?_, ?_⟩
  · show (getAssoc (mergeMeasOne E f) (mkey f)).map _ = _
    unfold mergeMeasOne
    simp only [hrow, getAssoc_setAssoc_self, Option.map_some']
    by_cases hc : f.confidence.getD 1 > row.confidence
    · simp only [if_pos hc]
    · simp only [if_neg hc]
  · unfold mergeEp
    simp only [hs, he, getAssoc_setAssoc_self, Option.map_some']
    rw [epRefs_title, epConf_title]
    show some (pyOrS fe.title ((getAssoc Ee (s, e)).getD (blankERow s e)).title) = some t
    rw [ht, pyOrS_some_ne t _ htne]
  · unfold mergeArt
    simp only [getAssoc_setAssoc_self, Option.map_some']
    rw [artRefs_name, artConf_name]
    show some (fa.name.getD ((getAssoc Ea fa.artifact_id).getD (blankARow fa.artifact_id)).name)
        = some nm
    rw [hnm]
    rfl

/-- C2 counterexample: the episodes merge replaces the stored title `"A"`
(stored confidence 9/10) with the incoming title `"B"` although the fact's
confidence 1/10 is strictly lower — the claimed replace-only-on-greater
rule does not hold for the episode merge's attribute values. -/
theorem confidence_gate_cx :
    (getAssoc (mergeEp [((1, 1), c2Row)] c2Fact) (1, 1)).map ERow.title = some "B" ∧
    c2Fact.confidence.getD 0 < c2Row.confidence.getD 0 := by decide

/-- C2 witness: the amended gating theorem applied at concrete inputs; the
measurement tie (1/2 vs stored 1/2) keeps the existing context. -/
theorem confidence_gate_wit :
    (getAssoc [(mkey c2wFact, c2wRow)] (mkey c2wFact) = some c2wRow) ∧
    (c2wEF.season = some 3) ∧ (c2wEF.episode = some 1) ∧
    (c2wEF.title = some "Titled") ∧ ("Titled" ≠ "") ∧
    (c2wAF.name = some "Spanish coin") ∧
    ((getAssoc (mergeMeas [(mkey c2wFact, c2wRow)] [c2wFact]) (mkey c2wFact)).map
        (fun r => (r.context, r.confidence))
      = some (if c2wFact.confidence.getD 1 > c2wRow.confidence
              then (c2wFact.context.getD "", c2wFact.confidence.getD 1)
              else (c2wRow.context, c2wRow.confidence))) ∧
    ((getAssoc (mergeEp [] c2wEF) (3, 1)).map ERow.title = some "Titled") ∧
    ((getAssoc (mergeArt [] c2wAF) c2wAF.artifact_id).map ARow.name = some "Spanish coin") :=
  ⟨by decide, by decide, by decide, by decide, by decide, by decide,
   (confidence_gate_amended [(mkey c2wFact, c2wRow)] c2wFact c2wRow [] c2wEF 3 1
      "Titled" [] c2wAF "Spanish coin" (by decide) (by decide) (by decide)
      (by decide) (by decide) (by decide)).1,
   (confidence_gate_amended [(mkey c2wFact, c2wRow)] c2wFact c2wRow [] c2wEF 3 1
      "Titled" [] c2wAF "Spanish coin" (by decide) (by decide) (by decide)
      (by decide) (by decide) (by decide)).2.1,
   (confidence_gate_amended [(mkey c2wFact, c2wRow)] c2wFact c2wRow [] c2wEF 3 1
      "Titled" [] c2wAF "Spanish coin" (by decide) (by decide) (by decide)
      (by decide) (by decide) (by decide)).2.2⟩

/-! ### Claim C6 -/

/-- C6: "merging two facts about the same entity in either order leaves the
attribute values equal to the higher-confidence fact's values", amended:
this holds for the locations-from-subtitles merge starting from a state
with no row for the shared key; for the episodes merge it fails (see
`order_independence_cx`): applied second, the lower-confidence fact's
present fields overwrite the higher-confidence values. -/
theorem order_independence_amended (E : List (LKey × LRow)) (f1 f2 : LFact)
    (hkey : lkey f1 = lkey f2)
    (hfresh : getAssoc E (lkey f1) = none)
    (hconf : f1.confidence.getD 1 < f2.confidence.getD 1) :
    ((getAssoc (mergeLoc E [f1, f2]) (lkey f2)).map
        (fun r => (r.location_name, r.text, r.confidence))
      = some (f2.location_name, f2.text.getD "", f2.confidence.getD 1)) ∧
    ((getAssoc (mergeLoc E [f2, f1]) (lkey f2)).map
        (fun r => (r.location_name, r.text, r.confidence))
      = some (f2.location_name, f2.text.getD "", f2.confidence.getD 1)) := by
  have hfresh2 : getAssoc E (lkey f2) = none := hkey ▸ hfresh
  constructor
  · show (getAssoc (mergeLocOne (mergeLocOne E f1) f2) (lkey f2)).map _ = _
    unfold mergeLocOne
    simp only [hfresh]
    rw [← hkey, getAssoc_setAssoc_self]
    simp only [if_pos hconf, getAssoc_setAssoc_self, Option.map_some']
  · show (getAssoc (mergeLocOne (mergeLocOne E f2) f1) (lkey f2)).map _ = _
    unfold mergeLocOne
    simp only [hfresh2]
    rw [hkey, getAssoc_setAssoc_self]
    have hnot : ¬ (f1.confidence.getD 1 > (f2.confidence.getD 1 : ℚ)) := not_lt.mpr (le_of_lt hconf)
    simp only [if_neg hnot, getAssoc_setAssoc_self, Option.map_some']

/-- C6 counterexample: in the episodes merge, applying the high-confidence
fact F2 (title "B", 9/10) first and the low-confidence fact F1 (title "A",
3/5) second leaves the title at "A", not at F2's value — order-independence
fails for the episodes merge. -/
theorem order_independence_cx :
    (getAssoc (mergeEp (mergeEp [] c6F2) c6F1) (1, 1)).map ERow.title = some "A" ∧
    c6F1.confidence.getD 0 < c6F2.confidence.getD 0 ∧ c6F2.title = some "B" := by decide

/-! ### Behaviour of the fuzzy-match fold -/

theorem fuzzyFold_stable (n : String) :
    ∀ (l : List (String × String)) (acc : ℚ × Option String),
    (∀ p ∈ l, string_similarity n p.1 ≤ acc.1) →
    l.foldl (fuzzyStep n) acc = acc := by
  intro l
  induction l with
  | nil => intro acc _; rfl
  | cons p rest ih =>
    intro acc h
    have hp : string_similarity n p.1 ≤ acc.1 := h p (List.mem_cons_self p rest)
    have hstep : fuzzyStep n acc p = acc := by
      unfold fuzzyStep; rw [if_neg (not_lt.mpr hp)]
    rw [List.foldl_cons, hstep]
    exact ih acc (fun q hq => h q (List.mem_cons_of_mem p hq))

theorem fuzzyStep_pos (n : String) (acc : ℚ × Option String) (p : String × String)
    (h : string_similarity n p.1 > acc.1) :
    fuzzyStep n acc p = (string_similarity n p.1, some p.2) := by
  unfold fuzzyStep; rw [if_pos h]

theorem fuzzyFold_lt (n : String) (s : ℚ) :
    ∀ (l : List (String × String)) (acc : ℚ × Option String),
    acc.1 < s → (∀ p ∈ l, string_similarity n p.1 < s) →
    (l.foldl (fuzzyStep n) acc).1 < s := by
  intro l
  induction l with
  | nil => intro acc hacc _; exact hacc
  | cons p rest ih =>
    intro acc hacc h
    rw [List.foldl_cons]
    apply ih
    · unfold fuzzyStep
      by_cases hc : string_similarity n p.1 > acc.1
      · rw [if_pos hc]
        exact h p (List.mem_cons_self p rest)
      · rw [if_neg hc]
        exact hacc
    · exact fun q hq => h q (List.mem_cons_of_mem p hq)

/-! ### Claim C3 -/

set_option maxHeartbeats 1000000 in
/-- C3: "when two known names score equally above the threshold, the
candidate with the larger existing mention count is chosen, independently
of the iteration order of the known-people mapping", amended to what the
fold actually does: the candidate appearing first in the mapping's
iteration order among those attaining the maximal score strictly above the
threshold is chosen (`score > best_score` never replaces on ties), and the
existing mention counts play no role.  The counterexample `tie_break_cx`
shows the choice flipping when the mapping order is reversed. -/
theorem tie_break_amended (name : String) (pre post : List (String × String)) (n c : String)
    (hnx : getAssoc (pre ++ (n, c) :: post) (pyStrip name) = none)
    (hs : string_similarity (pyStrip name) n > PERSON_MATCH_THRESHOLD)
    (hpre : ∀ p ∈ pre,
      string_similarity (pyStrip name) p.1 < string_similarity (pyStrip name) n)
    (hpost : ∀ p ∈ post,
      string_similarity (pyStrip name) p.1 ≤ string_similarity (pyStrip name) n) :
    fuzzy_match_person name (pre ++ (n, c) :: post) = c := by
  unfold fuzzy_match_person
  simp only [hnx]
  have hfold : ((pre ++ (n, c) :: post).foldl (fuzzyStep (pyStrip name))
      (PERSON_MATCH_THRESHOLD, none)).2 = some c := by
    rw [List.foldl_append, List.foldl_cons]
    have hpre1 : (pre.foldl (fuzzyStep (pyStrip name)) (PERSON_MATCH_THRESHOLD, none)).1
        < string_similarity (pyStrip name) n :=
      fuzzyFold_lt (pyStrip name) _ pre _ hs hpre
    have hstep : fuzzyStep (pyStrip name)
        (pre.foldl (fuzzyStep (pyStrip name)) (PERSON_MATCH_THRESHOLD, none)) (n, c)
        = (string_similarity (pyStrip name) n, some c) :=
      fuzzyStep_pos (pyStrip name) _ (n, c) hpre1
    rw [hstep, fuzzyFold_stable (pyStrip name) post _ hpost]
  simp only [hfold]

/-- C3 counterexample: "Ab" scores 1.0 against both "AB" and "ab" (all
lowercase to "ab"), strictly above the 0.85 threshold, yet the resolver
returns whichever candidate comes first in the mapping's iteration order —
the choice depends on that order and no mention count is consulted. -/
theorem tie_break_cx :
    string_similarity "Ab" "AB" = string_similarity "Ab" "ab" ∧
    string_similarity "Ab" "AB" > PERSON_MATCH_THRESHOLD ∧
    fuzzy_match_person "Ab" [("AB", "x"), ("ab", "y")] = "x" ∧
    fuzzy_match_person "Ab" [("ab", "y"), ("AB", "x")] = "y" := by decide

/-- C3 witness: the amended first-wins theorem applied at "Ab" against the
mapping [("AB","x"), ("ab","y")] with both scores equal to 1. -/
theorem tie_break_wit :
    (getAssoc [("AB", "x"), ("ab", "y")] (pyStrip "Ab") = none) ∧
    (string_similarity (pyStrip "Ab") "AB" > PERSON_MATCH_THRESHOLD) ∧
    (∀ p ∈ ([] : List (String × String)),
      string_similarity (pyStrip "Ab") p.1 < string_similarity (pyStrip "Ab") "AB") ∧
    (∀ p ∈ [("ab", "y")],
      string_similarity (pyStrip "Ab") p.1 ≤ string_similarity (pyStrip "Ab") "AB") ∧
    fuzzy_match_person "Ab" [("AB", "x"), ("ab", "y")] = "x" :=
  ⟨by decide, by decide, by decide, by decide,
   tie_break_amended "Ab" [] [("ab", "y")] "AB" "x"
     (by decide) (by decide) (by decide) (by decide)⟩

theorem load_jsonl_fold (α : Type) (decode : String → Option α) :
    ∀ (lines : List String) (acc : List α),
    lines.foldl (fun acc line =>
      if pyStrip line = "" then acc
      else
        match decode line with
        | some r => acc ++ [r]
        | none => acc) acc
    = acc ++ lines.filterMap (fun line =>
        if pyStrip line = "" then none else decode line) := by
  intro lines
  induction lines with
  | nil => intro acc; simp
  | cons l rest ih =>
    intro acc
    rw [List.foldl_cons, List.filterMap_cons]
    by_cases h : pyStrip l = ""
    · rw [if_pos h, if_pos h, ih]
    · rw [if_neg h, if_neg h]
      cases hd : decode l with
      | none => rw [ih]
      | some r => rw [ih, List.append_cons]

/-- C7: "a line that does not parse as JSON is skipped and counted while the
remaining lines are still returned, and a missing source file yields an
empty fact list with a warning logged rather than an error", amended: the
undecodable and blank lines are skipped silently — no counter and no log
entry records them — while every other line's record is returned in order;
a missing file yields the empty record list plus one warning. -/
theorem load_jsonl_amended (α : Type) (decode : String → Option α) (lines : List String) :
    ((load_jsonl decode (some lines)).1
      = lines.filterMap (fun line => if pyStrip line = "" then none else decode line)) ∧
    ((load_jsonl decode (some lines)).2 = []) ∧
    (load_jsonl decode (none : Option (List String)) = ([], [LogMsg.warn "File not found"])) := by
  refine ⟨?_, rfl, rfl⟩
  show (lines.foldl _ []) = _
  rw [load_jsonl_fold]
  rfl

/-- C7 counterexample: a malformed line is skipped but nowhere counted — the
loader's entire observable output (records and log events) on a file with
the bad line is identical to its output on the same file without it, so no
count of skipped records exists. -/
theorem load_jsonl_cx :
    load_jsonl cxDecode (some ["%%bad", "good"]) = ([7], []) ∧
    load_jsonl cxDecode (some ["good"]) = ([7], []) ∧
    load_jsonl cxDecode (some ["%%bad", "good"]) = load_jsonl cxDecode (some ["good"]) := by
  decide

/-! ### Claim C4 -/

/-- C4: "with no exact match and no score strictly above the threshold the
resolver derives a new canonical key by lowercasing, replacing every
non-alphanumeric character with a separator, truncating to a bounded
length, and registers it as newly known", amended to the code's actual
fallback: the returned key is the stripped raw key lowercased with only
the space characters replaced by underscores — other non-alphanumerics
are kept verbatim, nothing is truncated, and the key is not added to the
known-people mapping (the function has no side effect and `dedupe_people`
never extends `KNOWN_PEOPLE`). -/
theorem slug_fallback_amended (name : String) (kp : List (String × String))
    (hnx : getAssoc kp (pyStrip name) = none)
    (hlow : ∀ p ∈ kp, string_similarity (pyStrip name) p.1 ≤ PERSON_MATCH_THRESHOLD) :
    fuzzy_match_person name kp = pyUnderscore (pyLower (pyStrip name)) := by
  unfold fuzzy_match_person
  simp only [hnx]
  rw [fuzzyFold_stable (pyStrip name) kp _ hlow]

set_option maxRecDepth 8000 in
/-- C4 counterexample: the raw key "Zq#9" has no exact alias and no
similarity above the threshold, and the resolver returns "zq#9" — the
non-alphanumeric '#' is not replaced by any separator. -/
theorem slug_fallback_cx :
    fuzzy_match_person "Zq#9" KNOWN_PEOPLE = "zq#9" ∧
    '#' ∈ ("zq#9" : String).data ∧ '#'.isAlphanum = false := by decide

set_option maxRecDepth 8000 in
/-- C4 witness: the amended fallback theorem applied at "Zq#9" against the
full KNOWN_PEOPLE table. -/
theorem slug_fallback_wit :
    (getAssoc KNOWN_PEOPLE (pyStrip "Zq#9") = none) ∧
    (∀ p ∈ KNOWN_PEOPLE,
      string_similarity (pyStrip "Zq#9") p.1 ≤ PERSON_MATCH_THRESHOLD) ∧
    fuzzy_match_person "Zq#9" KNOWN_PEOPLE = pyUnderscore (pyLower (pyStrip "Zq#9")) :=
  ⟨by decide, by decide,
   slug_fallback_amended "Zq#9" KNOWN_PEOPLE (by decide) (by decide)⟩

theorem addToGroup_sizeSum (acc : List (String × List Mention)) (nm : String) (m : Mention) :
    sizeSum (addToGroup acc nm m) = sizeSum acc + 1 := by
  induction acc with
  | nil => simp [addToGroup, sizeSum]
  | cons g rest ih =>
    by_cases h : g.1 = nm
    · simp [addToGroup, h, sizeSum]
      omega
    · simp only [addToGroup, if_neg h]
      simp only [sizeSum, List.map_cons, List.sum_cons] at ih ⊢
      omega

theorem addToGroup_keys_sub (acc : List (String × List Mention)) (nm : String) (m : Mention) :
    ∀ g ∈ addToGroup acc nm m, g.1 ∈ acc.map Prod.fst ∨ g.1 = nm := by
  induction acc with
  | nil =>
    intro g hg
    simp [addToGroup] at hg
    simp [hg]
  | cons p rest ih =>
    intro g hg
    by_cases h : p.1 = nm
    · rw [addToGroup, if_pos h] at hg
      rcases List.mem_cons.mp hg with h1 | h1
      · subst h1; exact Or.inr h
      · have hmem : g.1 ∈ rest.map Prod.fst := List.mem_map.mpr ⟨g, h1, rfl⟩
        rw [List.map_cons]
        exact Or.inl (List.mem_cons_of_mem _ hmem)
    · rw [addToGroup, if_neg h] at hg
      rcases List.mem_cons.mp hg with h1 | h1
      · subst h1; exact Or.inl (by simp)
      · rcases ih g h1 with h2 | h2
        · exact Or.inl (by simp at h2 ⊢; exact Or.inr h2)
        · exact Or.inr h2

theorem addToGroup_mem_key (acc : List (String × List Mention)) (nm : String) (m : Mention) :
    nm ∈ (addToGroup acc nm m).map Prod.fst := by
  induction acc with
  | nil => simp [addToGroup]
  | cons p rest ih =>
    by_cases h : p.1 = nm
    · simp [addToGroup, h]
    · simp only [addToGroup, if_neg h, List.map_cons, List.mem_cons]
      exact Or.inr ih

theorem addToGroup_keys_mono (acc : List (String × List Mention)) (nm k : String) (m : Mention)
    (h : k ∈ acc.map Prod.fst) : k ∈ (addToGroup acc nm m).map Prod.fst := by
  induction acc with
  | nil => simp at h
  | cons p rest ih =>
    by_cases hp : p.1 = nm
    · simpa [addToGroup, hp] using (by simpa [hp] using h)
    · simp only [List.map_cons, List.mem_cons] at h
      rcases h with h | h
      · simp [addToGroup, hp, h]
      · simp only [addToGroup, if_neg hp, List.map_cons, List.mem_cons]
        exact Or.inr (ih h)

theorem groupFold_keys (P : String → Prop) :
    ∀ (ms : List Mention) (acc : List (String × List Mention)),
    (∀ m ∈ ms, P (trimName m)) → (∀ g ∈ acc, P g.1) →
    ∀ g ∈ ms.foldl groupStep acc, P g.1 := by
  intro ms
  induction ms with
  | nil => intro acc _ hacc; exact hacc
  | cons m rest ih =>
    intro acc hms hacc
    rw [List.foldl_cons]
    apply ih
    · exact fun x hx => hms x (List.mem_cons_of_mem m hx)
    · intro g hg
      unfold groupStep at hg
      by_cases hb : trimName m = ""
      · rw [if_pos hb] at hg; exact hacc g hg
      · rw [if_neg hb] at hg
        rcases addToGroup_keys_sub acc (trimName m) m g hg with h1 | h1
        · rcases List.mem_map.mp h1 with ⟨x, hx, hxe⟩
          exact hxe ▸ hacc x hx
        · exact h1 ▸ hms m (List.mem_cons_self m rest)

theorem groupFold_size :
    ∀ (ms : List Mention) (acc : List (String × List Mention)),
    (∀ m ∈ ms, trimName m ≠ "") →
    sizeSum (ms.foldl groupStep acc) = sizeSum acc + ms.length := by
  intro ms
  induction ms with
  | nil => intro acc _; simp
  | cons m rest ih =>
    intro acc hms
    rw [List.foldl_cons]
    have hb : trimName m ≠ "" := hms m (List.mem_cons_self m rest)
    have hstep : groupStep acc m = addToGroup acc (trimName m) m := by
      unfold groupStep; rw [if_neg hb]
    rw [hstep, ih _ (fun x hx => hms x (List.mem_cons_of_mem m hx)),
      addToGroup_sizeSum]
    simp
    omega

theorem groupFold_keys_mono (k : String) :
    ∀ (ms : List Mention) (acc : List (String × List Mention)),
    k ∈ acc.map Prod.fst → k ∈ (ms.foldl groupStep acc).map Prod.fst := by
  intro ms
  induction ms with
  | nil => intro acc h; exact h
  | cons m rest ih =>
    intro acc h
    rw [List.foldl_cons]
    apply ih
    unfold groupStep
    by_cases hb : trimName m = ""
    · rw [if_pos hb]; exact h
    · rw [if_neg hb]; exact addToGroup_keys_mono acc (trimName m) k m h

theorem groupFold_mem :
    ∀ (ms : List Mention) (acc : List (String × List Mention)) (m : Mention),
    m ∈ ms → trimName m ≠ "" →
    trimName m ∈ (ms.foldl groupStep acc).map Prod.fst := by
  intro ms
  induction ms with
  | nil => intro acc m h _; simp at h
  | cons m0 rest ih =>
    intro acc m hm hb
    rw [List.foldl_cons]
    rcases List.mem_cons.mp hm with h1 | h1
    · subst h1
      apply groupFold_keys_mono
      unfold groupStep
      rw [if_neg hb]
      exact addToGroup_mem_key acc (trimName m) m
    · exact ih _ m h1 hb

theorem mapLookup (kp : List (String × String)) (l : List (String × List Mention)) (k : String)
    (h : k ∈ l.map Prod.fst) :
    getAssoc (l.map (fun g => (g.1, fuzzy_match_person g.1 kp))) k
      = some (fuzzy_match_person k kp) := by
  induction l with
  | nil => simp at h
  | cons g rest ih =>
    by_cases hg : g.1 = k
    · simp [getAssoc, hg]
    · simp only [List.map_cons, List.mem_cons] at h
      rcases h with h | h
      · exact absurd h.symm hg
      · simp only [List.map_cons, getAssoc, if_neg hg]
        exact ih h

/-! ### Counting and ledger lemmas -/

theorem countsFold_same (kp : List (String × String)) (cid : String) :
    ∀ (gs : List (String × List Mention)) (c : Nat),
    (∀ g ∈ gs, fuzzy_match_person g.1 kp = cid) →
    gs.foldl (fun acc g => bumpCount acc (fuzzy_match_person g.1 kp) g.2.length)
      [(cid, c)] = [(cid, c + sizeSum gs)] := by
  intro gs
  induction gs with
  | nil => intro c _; simp [sizeSum]
  | cons g rest ih =>
    intro c hall
    rw [List.foldl_cons]
    have hg : fuzzy_match_person g.1 kp = cid := hall g (List.mem_cons_self g rest)
    have hb : bumpCount [(cid, c)] (fuzzy_match_person g.1 kp) g.2.length
        = [(cid, c + g.2.length)] := by
      rw [hg]; simp [bumpCount]
    rw [hb, ih _ (fun x hx => hall x (List.mem_cons_of_mem g hx))]
    simp [sizeSum]
    omega

theorem countsFold_nil (kp : List (String × String)) (cid : String)
    (gs : List (String × List Mention)) (hne : gs ≠ [])
    (hall : ∀ g ∈ gs, fuzzy_match_person g.1 kp = cid) :
    gs.foldl (fun acc g => bumpCount acc (fuzzy_match_person g.1 kp) g.2.length) []
      = [(cid, sizeSum gs)] := by
  cases gs with
  | nil => exact absurd rfl hne
  | cons g rest =>
    rw [List.foldl_cons]
    have hg : fuzzy_match_person g.1 kp = cid := hall g (List.mem_cons_self g rest)
    have hb : bumpCount [] (fuzzy_match_person g.1 kp) g.2.length
        = [(cid, g.2.length)] := by rw [hg]; rfl
    rw [hb, countsFold_same kp cid rest _ (fun x hx => hall x (List.mem_cons_of_mem g hx))]
    simp [sizeSum]

theorem ledgerFold_ids (n2c : List (String × String)) (cid : String) :
    ∀ (ms : List Mention) (acc : List PMRow),
    (∀ m ∈ ms, trimName m ≠ "" ∧ (getAssoc n2c (trimName m)).getD "" = cid) →
    (ms.foldl (ledgerStep n2c) acc).map PMRow.person_id
      = acc.map PMRow.person_id ++ List.replicate ms.length cid := by
  intro ms
  induction ms with
  | nil => intro acc _; simp
  | cons m rest ih =>
    intro acc h
    obtain ⟨hb, hc⟩ := h m (List.mem_cons_self m rest)
    rw [List.foldl_cons]
    have hstep : ledgerStep n2c acc m = acc ++ [mkPMRow cid m] := by
      unfold ledgerStep
      rw [if_neg hb, hc]
    rw [hstep, ih _ (fun x hx => h x (List.mem_cons_of_mem m hx))]
    simp [mkPMRow, List.replicate_succ]

theorem ledgerFold_len (n2c : List (String × String)) :
    ∀ (ms : List Mention) (acc : List PMRow),
    (ms.foldl (ledgerStep n2c) acc).length
      = acc.length + (ms.filter (fun m => trimName m != "")).length := by
  intro ms
  induction ms with
  | nil => intro acc; simp
  | cons m rest ih =>
    intro acc
    rw [List.foldl_cons, List.filter_cons]
    by_cases hb : trimName m = ""
    · have : (trimName m != "") = false := by simp [hb]
      rw [this]
      have hstep : ledgerStep n2c acc m = acc := by
        unfold ledgerStep; rw [if_pos hb]
      rw [hstep, ih]
      simp
    · have : (trimName m != "") = true := by simp [hb]
      rw [this]
      have hstep : ledgerStep n2c acc m
          = acc ++ [mkPMRow ((getAssoc n2c (trimName m)).getD "") m] := by
        unfold ledgerStep; rw [if_neg hb]
      rw [hstep, ih]
      simp
      omega

theorem semdb_ext (a b : SemDB) (h1 : a.people = b.people)
    (h2 : a.person_mentions = b.person_mentions) : a = b := by
  cases a; cases b
  simp only at h1 h2
  rw [h1, h2]

/-! ### Claim C5 -/

/-- C5: deduplicating any non-empty list of person mentions whose names are
all "Rick" or "Rick Lagina" (interleaved in any order) resolves every
mention to the single canonical key rick_lagina via the authoritative alias
table, creates exactly one canonical people record carrying the full
mention count, and appends exactly one person_mentions ledger row per
mention, every row carrying that key. -/
theorem rick_dedup_thm (ms : List Mention)
    (hms : ∀ m ∈ ms, m.person = some "Rick" ∨ m.person = some "Rick Lagina")
    (hne : ms ≠ []) :
    (dedupe_people KNOWN_PEOPLE ms ⟨[], []⟩).people
        = [⟨"rick_lagina", "Rick Lagina", (ms.length : Int)⟩] ∧
    (dedupe_people KNOWN_PEOPLE ms ⟨[], []⟩).person_mentions.length = ms.length ∧
    (dedupe_people KNOWN_PEOPLE ms ⟨[], []⟩).person_mentions.map PMRow.person_id
        = List.replicate ms.length "rick_lagina" := by
  have hkey : ∀ m ∈ ms, trimName m = "Rick" ∨ trimName m = "Rick Lagina" := by
    intro m hm
    rcases hms m hm with h | h
    · left
      show pyStrip (m.person.getD "") = "Rick"
      rw [h]; decide
    · right
      show pyStrip (m.person.getD "") = "Rick Lagina"
      rw [h]; decide
  have hnb : ∀ m ∈ ms, trimName m ≠ "" := by
    intro m hm
    rcases hkey m hm with h | h <;> rw [h] <;> decide
  have hgood : ∀ g ∈ groupMentions ms, g.1 = "Rick" ∨ g.1 = "Rick Lagina" :=
    groupFold_keys (fun k => k = "Rick" ∨ k = "Rick Lagina") ms [] hkey
      (by intro g hg; simp at hg)
  have hfz : ∀ g ∈ groupMentions ms, fuzzy_match_person g.1 KNOWN_PEOPLE = "rick_lagina" := by
    intro g hg
    rcases hgood g hg with h | h <;> rw [h] <;> decide
  have hsize : sizeSum (groupMentions ms) = ms.length := by
    have h := groupFold_size ms [] hnb
    simpa [groupMentions, sizeSum] using h
  have hGne : groupMentions ms ≠ [] := by
    intro h
    rw [h] at hsize
    simp [sizeSum] at hsize
    cases ms with
    | nil => exact hne rfl
    | cons a l => simp at hsize
  have hcounts : (groupMentions ms).foldl
      (fun acc g => bumpCount acc (fuzzy_match_person g.1 KNOWN_PEOPLE) g.2.length) []
      = [("rick_lagina", ms.length)] := by
    rw [countsFold_nil KNOWN_PEOPLE "rick_lagina" _ hGne hfz, hsize]
  have hlookup : ∀ m ∈ ms,
      (getAssoc ((groupMentions ms).map
        (fun g => (g.1, fuzzy_match_person g.1 KNOWN_PEOPLE))) (trimName m)).getD ""
      = "rick_lagina" := by
    intro m hm
    have hmem : trimName m ∈ (groupMentions ms).map Prod.fst :=
      groupFold_mem ms [] m hm (hnb m hm)
    rw [mapLookup KNOWN_PEOPLE _ _ hmem]
    have hfm : fuzzy_match_person (trimName m) KNOWN_PEOPLE = "rick_lagina" := by
      rcases hkey m hm with h | h <;> rw [h] <;> decide
    rw [hfm]
    rfl
  refine ⟨?_, ?_, ?_⟩
  · show ((groupMentions ms).foldl
        (fun acc g => bumpCount acc (fuzzy_match_person g.1 KNOWN_PEOPLE) g.2.length)
        []).foldl
        (fun acc p => upsertPerson acc ⟨p.1, displayOf p.1, (p.2 : Int)⟩) [] = _
    rw [hcounts]
    show upsertPerson [] ⟨"rick_lagina", displayOf "rick_lagina", (ms.length : Int)⟩ = _
    have hdisp : displayOf "rick_lagina" = "Rick Lagina" := by decide
    rw [hdisp]
    rfl
  · show (ms.foldl (ledgerStep ((groupMentions ms).map
        (fun g => (g.1, fuzzy_match_person g.1 KNOWN_PEOPLE)))) []).length = ms.length
    rw [ledgerFold_len]
    have hfilter : ms.filter (fun m => trimName m != "") = ms := by
      apply List.filter_eq_self.mpr
      intro m hm
      simp [hnb m hm]
    rw [hfilter]
    simp
  · show (ms.foldl (ledgerStep ((groupMentions ms).map
        (fun g => (g.1, fuzzy_match_person g.1 KNOWN_PEOPLE)))) []).map PMRow.person_id
        = List.replicate ms.length "rick_lagina"
    rw [ledgerFold_ids _ "rick_lagina" ms []
      (fun m hm => ⟨hnb m hm, hlookup m hm⟩)]
    simp

/-- C5 witness: the dedup-ratio theorem applied to three interleaved
"Rick" / "Rick Lagina" mentions. -/
theorem rick_dedup_wit :
    (∀ m ∈ [c5m1, c5m2, c5m3],
      m.person = some "Rick" ∨ m.person = some "Rick Lagina") ∧
    ([c5m1, c5m2, c5m3] ≠ ([] : List Mention)) ∧
    (dedupe_people KNOWN_PEOPLE [c5m1, c5m2, c5m3] ⟨[], []⟩).people
        = [⟨"rick_lagina", "Rick Lagina", (([c5m1, c5m2, c5m3] : List Mention).length : Int)⟩] ∧
    (dedupe_people KNOWN_PEOPLE [c5m1, c5m2, c5m3] ⟨[], []⟩).person_mentions.length = 3 ∧
    (dedupe_people KNOWN_PEOPLE [c5m1, c5m2, c5m3] ⟨[], []⟩).person_mentions.map PMRow.person_id
        = List.replicate 3 "rick_lagina" :=
  ⟨by decide, by decide,
   (rick_dedup_thm [c5m1, c5m2, c5m3] (by decide) (by decide)).1,
   (rick_dedup_thm [c5m1, c5m2, c5m3] (by decide) (by decide)).2.1,
   (rick_dedup_thm [c5m1, c5m2, c5m3] (by decide) (by decide)).2.2⟩

/-! ### Claim C9 -/

theorem group_filter (ms : List Mention) :
    ∀ acc, ms.foldl groupStep acc
      = (ms.filter (fun m => trimName m != "")).foldl groupStep acc := by
  induction ms with
  | nil => intro acc; rfl
  | cons m rest ih =>
    intro acc
    rw [List.foldl_cons, List.filter_cons]
    by_cases hb : trimName m = ""
    · have hp : (trimName m != "") = false := by simp [hb]
      rw [hp]
      have hstep : groupStep acc m = acc := by unfold groupStep; rw [if_pos hb]
      rw [hstep, ih]
      simp
    · have hp : (trimName m != "") = true := by simp [hb]
      rw [hp]
      simp only [eq_self_iff_true, if_true, List.foldl_cons]
      rw [ih]

theorem ledger_filter (n2c : List (String × String)) (ms : List Mention) :
    ∀ acc, ms.foldl (ledgerStep n2c) acc
      = (ms.filter (fun m => trimName m != "")).foldl (ledgerStep n2c) acc := by
  induction ms with
  | nil => intro acc; rfl
  | cons m rest ih =>
    intro acc
    rw [List.foldl_cons, List.filter_cons]
    by_cases hb : trimName m = ""
    · have hp : (trimName m != "") = false := by simp [hb]
      rw [hp]
      have hstep : ledgerStep n2c acc m = acc := by unfold ledgerStep; rw [if_pos hb]
      rw [hstep, ih]
      simp
    · have hp : (trimName m != "") = true := by simp [hb]
      rw [hp]
      simp only [eq_self_iff_true, if_true, List.foldl_cons]
      rw [ih]

/-- C9: a person mention whose name is absent, empty, or whitespace-only is
silently dropped by `dedupe_people` — running the deduplication on the
mention list is exactly the same as running it on the list with all
blank-name mentions removed, and the ledger grows by exactly one row per
non-blank mention (so ledger completeness counts only those). -/
theorem blank_mentions_dropped (kp : List (String × String)) (ms : List Mention) (db : SemDB) :
    dedupe_people kp ms db
      = dedupe_people kp (ms.filter (fun m => trimName m != "")) db ∧
    (dedupe_people kp ms db).person_mentions.length
      = db.person_mentions.length + (ms.filter (fun m => trimName m != "")).length := by
  constructor
  · apply semdb_ext
    · show ((groupMentions ms).foldl
          (fun acc g => bumpCount acc (fuzzy_match_person g.1 kp) g.2.length) []).foldl
          (fun acc p => upsertPerson acc ⟨p.1, displayOf p.1, (p.2 : Int)⟩) db.people
        = ((groupMentions (ms.filter (fun m => trimName m != ""))).foldl
          (fun acc g => bumpCount acc (fuzzy_match_person g.1 kp) g.2.length) []).foldl
          (fun acc p => upsertPerson acc ⟨p.1, displayOf p.1, (p.2 : Int)⟩) db.people
      rw [show groupMentions (ms.filter (fun m => trimName m != "")) = groupMentions ms from
        (group_filter ms []).symm]
    · show ms.foldl (ledgerStep ((groupMentions ms).map
          (fun g => (g.1, fuzzy_match_person g.1 kp)))) db.person_mentions
        = (ms.filter (fun m => trimName m != "")).foldl
          (ledgerStep ((groupMentions (ms.filter (fun m => trimName m != ""))).map
            (fun g => (g.1, fuzzy_match_person g.1 kp)))) db.person_mentions
      rw [show groupMentions (ms.filter (fun m => trimName m != "")) = groupMentions ms from
        (group_filter ms []).symm]
      exact ledger_filter _ ms db.person_mentions
  · show (ms.foldl (ledgerStep ((groupMentions ms).map
        (fun g => (g.1, fuzzy_match_person g.1 kp)))) db.person_mentions).length = _
    exact ledgerFold_len _ ms db.person_mentions

/-- C8: recomputing the aggregate statistics is a pure function of the
mention-ledger tables, which the update never modifies: running
`update_statistics` twice over unchanged `person_mentions`,
`theory_mentions`, `artifact_evidence` and `events` tables yields exactly
the same `people`, `theories` and `locations` rows — mention_count,
first/last appearance and evidence_count included — as running it once. -/
theorem update_statistics_idem (db : StatsDB) :
    update_statistics (update_statistics db) = update_statistics db := by
  cases db with
  | mk people pms theories tms evid locs evts =>
    simp only [update_statistics, List.map_map, StatsDB.mk.injEq, and_true, true_and]
    refine ⟨?_, ?_, ?_⟩
    · exact List.map_congr_left (fun p _ => rfl)
    · exact List.map_congr_left (fun t _ => rfl)
    · exact List.map_congr_left (fun loc _ => rfl)

/-- After any call, the key is cached with the returned id. -/
theorem get_or_create_episode_cached (season episode : Int) (st : EpState) :
    getAssoc (get_or_create_episode season episode st).2.episode_map (season, episode)
      = some (get_or_create_episode season episode st).1 := by
  unfold get_or_create_episode
  cases h1 : getAssoc st.episode_map (season, episode) with
  | some eid =>
    simp only [h1]
  | none =>
    simp only [h1]
    cases h2 : selectEpisode st.episodes season episode with
    | some eid =>
      simp only [h2]
      exact getAssoc_setAssoc_self _ _ _
    | none =>
      simp only [h2]
      exact getAssoc_setAssoc_self _ _ _

/-- A call whose key is already cached returns the cached id unchanged. -/
theorem get_or_create_episode_hit (season episode : Int) (st : EpState) (eid : Int)
    (h : getAssoc st.episode_map (season, episode) = some eid) :
    get_or_create_episode season episode st = (eid, st) := by
  unfold get_or_create_episode
  simp only [h]

/-- C10: the keyed get-or-create lookup is idempotent — the second of two
successive calls with the same `(season, episode)` key returns the same
integer id and performs no insert at all (the state, table included, is
unchanged), and a single call grows the episodes table by at most one
row. -/
theorem get_or_create_episode_idem (season episode : Int) (st : EpState) :
    (get_or_create_episode season episode
        (get_or_create_episode season episode st).2).1
      = (get_or_create_episode season episode st).1 ∧
    (get_or_create_episode season episode
        (get_or_create_episode season episode st).2).2
      = (get_or_create_episode season episode st).2 ∧
    (get_or_create_episode season episode st).2.episodes.length
      ≤ st.episodes.length + 1 := by
  have hc := get_or_create_episode_cached season episode st
  have hsecond : get_or_create_episode season episode
      (get_or_create_episode season episode st).2
      = ((get_or_create_episode season episode st).1,
         (get_or_create_episode season episode st).2) :=
    get_or_create_episode_hit season episode _ _ hc
  refine ⟨by rw [hsecond], by rw [hsecond], ?_⟩
  unfold get_or_create_episode
  cases h1 : getAssoc st.episode_map (season, episode) with
  | some eid =>
    simp only [h1]
    exact Nat.le_succ _
  | none =>
    simp only [h1]
    cases h2 : selectEpisode st.episodes season episode with
    | some eid =>
      simp only [h2]
      exact Nat.le_succ _
    | none =>
      simp only [h2]
      by_cases h3 : st.episodes.any (fun r => r.season == season && r.episode == episode)
      · simp [h3]
      · simp [h3]

/-- C6 witness: the amended order-independence theorem applied at concrete
location facts with confidences 3/5 and 9/10. -/
theorem order_independence_wit :
    (lkey c6wF1 = lkey c6wF2) ∧
    (getAssoc ([] : List (LKey × LRow)) (lkey c6wF1) = none) ∧
    (c6wF1.confidence.getD 1 < c6wF2.confidence.getD 1) ∧
    ((getAssoc (mergeLoc [] [c6wF1, c6wF2]) (lkey c6wF2)).map
        (fun r => (r.location_name, r.text, r.confidence))
      = some (c6wF2.location_name, c6wF2.text.getD "", c6wF2.confidence.getD 1)) ∧
    ((getAssoc (mergeLoc [] [c6wF2, c6wF1]) (lkey c6wF2)).map
        (fun r => (r.location_name, r.text, r.confidence))
      = some (c6wF2.location_name, c6wF2.text.getD "", c6wF2.confidence.getD 1)) :=
  ⟨by decide, by decide, by decide,
   (order_independence_amended [] c6wF1 c6wF2 (by decide) (by decide) (by decide)).1,
   (order_independence_amended [] c6wF1 c6wF2 (by decide) (by decide) (by decide)).2⟩

end Oak
